import Mathlib

/-!
Verification of the dsws-client request-batching engine and response-flattening
pipeline, as implemented in `src/dsws_client/ds_request.py`,
`src/dsws_client/converters.py` and `src/dsws_client/parse.py`.

Python strings are embedded as `List Char`, Python `list` as `List`, Python
`dict` as an insertion-ordered association list (updates keep the position of an
existing key, new keys are appended at the end, exactly like CPython dicts), and
Python exceptions as an `Except` error channel.
-/

namespace DswsClient

/-- Python strings, embedded as lists of characters. -/
abbrev Str := List Char

/-- Python exceptions that the embedded dsws-client code can raise.
`invalidResponse` models `InvalidResponseError` (`exceptions.py`); the others
model the builtin `ValueError`, `ZeroDivisionError`, `KeyError`, `IndexError`. -/
inductive PyException where
  | invalidResponse (msg : Str)
  | valueError
  | zeroDivisionError
  | keyError
  | indexError
deriving DecidableEq, Repr

/-! ## Ordered dictionaries (CPython `dict` semantics on association lists) -/

/-- Models `d[k] = v` on a CPython dict: an existing key keeps its position and gets
the new value, a missing key is appended at the end. -/
def dictSet {κ ν : Type} [DecidableEq κ] (d : List (κ × ν)) (k : κ) (v : ν) :
    List (κ × ν) :=
  match d with
  | [] => [(k, v)]
  | (k1, v1) :: rest => if k1 = k then (k, v) :: rest else (k1, v1) :: dictSet rest k v

/-- Models `d.get(k)`: the value at the first occurrence of key `k`, if any. -/
def dictGet {κ ν : Type} [DecidableEq κ] (d : List (κ × ν)) (k : κ) : Option ν :=
  match d with
  | [] => none
  | (k1, v1) :: rest => if k1 = k then some v1 else dictGet rest k

/-- Models `{**d1, **d2}`: start from `d1` and set every pair of `d2` in order. -/
def dictUpdate {κ ν : Type} [DecidableEq κ] (d1 d2 : List (κ × ν)) : List (κ × ν) :=
  d2.foldl (fun acc kv => dictSet acc kv.1 kv.2) d1

/-- Models `{kv.key: kv.value for kv in l}`: a dict comprehension. -/
def pairsToDict {κ ν : Type} [DecidableEq κ] (l : List (κ × ν)) : List (κ × ν) :=
  dictUpdate [] l

/-- Models `d[k][k2] = v` on a `collections.defaultdict(dict)`: the inner dict defaults
to `{}` when the outer key is missing. -/
def dict2Set {κ κ2 ν : Type} [DecidableEq κ] [DecidableEq κ2]
    (d : List (κ × List (κ2 × ν))) (k : κ) (k2 : κ2) (v : ν) :
    List (κ × List (κ2 × ν)) :=
  dictSet d k (dictSet ((dictGet d k).getD []) k2 v)

/-- The keys of a dict are pairwise distinct (every real Python dict satisfies
this; `dictSet` preserves it). -/
abbrev DictNodup {κ ν : Type} (d : List (κ × ν)) : Prop := (d.map Prod.fst).Nodup

/-! ## Python `str.split(sep)` / `sep.join` for a one-character separator -/

/-- Models `s.split(sep)` for a single-character separator `sep`: always returns at
least one (possibly empty) field; `"".split(sep) == [""]`. -/
def splitOnChar (sep : Char) : Str → List Str
  | [] => [[]]
  | c :: rest =>
    let r := splitOnChar sep rest
    if c = sep then [] :: r
    else (c :: r.headD []) :: r.tail

/-- Models `sep.join(l)` for a single-character separator. -/
def joinChar (sep : Char) : List Str → Str
  | [] => []
  | [x] => x
  | x :: y :: rest => x ++ sep :: joinChar sep (y :: rest)

/-! ## Python `l[i:i+k]` slicing loop: `for i in range(0, len(l), k)` -/

/-- The list of chunks `l[i*k : i*k + k]` for `i` ranging over
`range(0, len(l), k)`, exactly as the Python loops in `bundle_identifiers` and
`split_bundle_identifiers` produce them.  The number of loop iterations is
`ceil(len(l) / k)`.  (For `k = 0` Python `range` raises; that case is
unreachable behind the guards of `bundle_identifiers`.) -/
def pyRangeChunks {α : Type} (k : Nat) (l : List α) : List (List α) :=
  (List.range ((l.length + k - 1) / k)).map (fun i => (l.drop (i * k)).take k)

/-! ## Request limits (`ds_request.py`) -/

def MAX_INSTRUMENTS_PER_REQUEST : Nat := 50

def MAX_DATATYPES_PER_REQUEST : Nat := 50

def MAX_ITEMS_PER_REQUEST : Nat := 100

def MAX_REQUESTS_PER_BUNDLE : Nat := 20

def MAX_ITEMS_PER_BUNDLE : Nat := 500

/-! ## Instruments and the batching engine (`ds_request.py`) -/

/-- Models `DSStringKVPair` (`value_objects/types.py`): key is `Optional[str]`, the
value is untyped (here: a raw string is enough for the hint properties the
batching engine carries along unchanged). -/
structure DSStringKVPair where
  key : Option Str
  value : Str
deriving DecidableEq, Repr

/-- Models `DSInstrument`: a comma-joined value string plus hint properties
(`attrs.evolve` in the batching engine replaces `value` and keeps
`properties`). -/
structure DSInstrument where
  value : Str
  properties : List DSStringKVPair := []
deriving DecidableEq, Repr

/-- Models `DSInstrument.identifiers`: `self.value.split(",")`. -/
def DSInstrument.identifiers (i : DSInstrument) : List Str :=
  splitOnChar ',' i.value

/-- Models `split_bundle_identifiers`: chunk one bundle instrument into per-request
instruments of at most `min(MAX_INSTRUMENTS_PER_REQUEST,
MAX_ITEMS_PER_REQUEST // n_fields)` identifiers each. -/
def split_bundle_identifiers (bundle_instrument : DSInstrument) (n_fields : Nat) :
    List DSInstrument :=
  let identifiers := bundle_instrument.identifiers
  let n_identifiers_per_request :=
    min MAX_INSTRUMENTS_PER_REQUEST (MAX_ITEMS_PER_REQUEST / n_fields)
  (pyRangeChunks n_identifiers_per_request identifiers).map
    (fun chunk => { bundle_instrument with value := joinChar ',' chunk })

/-- The body of `bundle_identifiers` after the line
`identifiers = instrument.identifiers`, parameterised by that identifier list
(the rest of the function depends on `instrument` only through `attrs.evolve`).
The `n_fields > MAX_DATATYPES_PER_REQUEST` guard raises `ValueError`; for
`n_fields = 0` the chunk-size computation `MAX_ITEMS_PER_BUNDLE // n_fields`
raises `ZeroDivisionError`. -/
def bundle_identifiers_ids (instrument : DSInstrument) (identifiers : List Str)
    (n_fields : Nat) : Except PyException (List (List DSInstrument)) :=
  if MAX_DATATYPES_PER_REQUEST < n_fields then Except.error PyException.valueError
  else if n_fields = 0 then Except.error PyException.zeroDivisionError
  else
    let n_identifiers_per_batch := MAX_ITEMS_PER_BUNDLE / n_fields
    Except.ok ((pyRangeChunks n_identifiers_per_batch identifiers).map
      (fun batch =>
        split_bundle_identifiers
          { instrument with value := joinChar ',' batch } n_fields))

/-- Models `bundle_identifiers`: make a list of bundles of identifiers. -/
def bundle_identifiers (instrument : DSInstrument) (n_fields : Nat) :
    Except PyException (List (List DSInstrument)) :=
  bundle_identifiers_ids instrument instrument.identifiers n_fields

/-! ## Lemmas about `splitOnChar` and `joinChar` -/

theorem splitOnChar_ne_nil (sep : Char) (s : Str) : splitOnChar sep s ≠ [] := by
  cases s with
  | nil => simp [splitOnChar]
  | cons c rest => simp only [splitOnChar]; split <;> simp

theorem mem_splitOnChar_not_mem (sep : Char) (s : Str) :
    ∀ t ∈ splitOnChar sep s, sep ∉ t := by
  induction s with
  | nil =>
    intro t ht
    simp only [splitOnChar, List.mem_singleton] at ht
    simp [ht]
  | cons c rest ih =>
    intro t ht
    obtain ⟨hd, tl, hr⟩ := List.exists_cons_of_ne_nil (splitOnChar_ne_nil sep rest)
    have hhd : sep ∉ hd := ih hd (by rw [hr]; exact List.mem_cons_self _ _)
    simp only [splitOnChar, hr] at ht
    by_cases hc : c = sep
    · rw [if_pos hc] at ht
      rcases List.mem_cons.mp ht with h1 | h1
      · subst h1; simp
      · exact ih t (by rw [hr]; exact h1)
    · rw [if_neg hc] at ht
      simp only [List.headD_cons, List.tail_cons] at ht
      rcases List.mem_cons.mp ht with h1 | h1
      · subst h1
        intro hmem
        rcases List.mem_cons.mp hmem with h2 | h2
        · exact hc h2.symm
        · exact hhd h2
      · exact ih t (by rw [hr]; exact List.mem_cons_of_mem _ h1)

theorem splitOnChar_not_mem (sep : Char) (s : Str) (h : sep ∉ s) :
    splitOnChar sep s = [s] := by
  induction s with
  | nil => simp [splitOnChar]
  | cons c rest ih =>
    simp only [List.mem_cons, not_or] at h
    simp [splitOnChar, ih h.2, Ne.symm h.1]

theorem splitOnChar_append (sep : Char) (x t : Str) (hx : sep ∉ x) :
    splitOnChar sep (x ++ sep :: t) = x :: splitOnChar sep t := by
  induction x with
  | nil => simp [splitOnChar]
  | cons c rest ih =>
    simp only [List.mem_cons, not_or] at hx
    simp [splitOnChar, ih hx.2, Ne.symm hx.1]

theorem splitOnChar_joinChar (sep : Char) (l : List Str) (hne : l ≠ [])
    (hfree : ∀ x ∈ l, sep ∉ x) : splitOnChar sep (joinChar sep l) = l := by
  induction l with
  | nil => exact absurd rfl hne
  | cons x rest ih =>
    cases rest with
    | nil => simpa [joinChar] using splitOnChar_not_mem sep x (hfree x (by simp))
    | cons y rest2 =>
      have hx : sep ∉ x := hfree x (by simp)
      have := ih (by simp) (fun z hz => hfree z (by simp [hz]))
      simp only [joinChar, splitOnChar_append sep x _ hx, this]

/-! ## Lemmas about `pyRangeChunks` -/

theorem pyRangeChunks_nil {α : Type} (k : Nat) : pyRangeChunks k ([] : List α) = [] := by
  cases k with
  | zero => simp [pyRangeChunks]
  | succ n => simp [pyRangeChunks, Nat.div_eq_of_lt (Nat.lt_succ_self n)]

theorem ceil_div_succ (n k : Nat) (hn : 1 ≤ n) (hk : 1 ≤ k) :
    (n + k - 1) / k = ((n - k) + k - 1) / k + 1 := by
  rcases le_or_lt k n with h | h
  · have heq : n + k - 1 = ((n - k) + k - 1) + k := by omega
    rw [heq, Nat.add_div_right _ hk]
  · have hnk : n - k = 0 := by omega
    have h1 : (n + k - 1) / k = 1 :=
      Nat.div_eq_of_lt_le (by omega) (by omega)
    have h0 : (k - 1) / k = 0 := Nat.div_eq_of_lt (by omega)
    rw [hnk, h1]
    simp [h0]

theorem pyRangeChunks_cons {α : Type} (k : Nat) (l : List α) (hk : 1 ≤ k)
    (hl : l ≠ []) :
    pyRangeChunks k l = l.take k :: pyRangeChunks k (l.drop k) := by
  have hn : 1 ≤ l.length := List.length_pos.mpr hl
  have hm : (l.length + k - 1) / k = ((l.length - k) + k - 1) / k + 1 :=
    ceil_div_succ l.length k hn hk
  have hdl : (l.drop k).length = l.length - k := List.length_drop k l
  simp only [pyRangeChunks, hm, hdl, List.range_succ_eq_map, List.map_cons,
    List.map_map]
  congr 1
  · simp
  · apply List.map_congr_left
    intro i _
    simp only [Function.comp_apply, List.drop_drop]
    rw [Nat.succ_mul, Nat.add_comm (i * k) k, Nat.add_comm k (i * k)]

theorem pyRangeChunks_flatten {α : Type} (k : Nat) (hk : 1 ≤ k) (l : List α) :
    (pyRangeChunks k l).flatten = l := by
  rcases eq_or_ne l [] with h | h
  · subst h; rw [pyRangeChunks_nil]; rfl
  · rw [pyRangeChunks_cons k l hk h, List.flatten_cons,
      pyRangeChunks_flatten k hk (l.drop k), List.take_append_drop]
termination_by l.length
decreasing_by
  have h1 : 0 < l.length := List.length_pos.mpr h
  simp only [List.length_drop]
  omega

theorem pyRangeChunks_length_le {α : Type} (k : Nat) (l : List α) :
    ∀ c ∈ pyRangeChunks k l, c.length ≤ k := by
  intro c hc
  simp only [pyRangeChunks, List.mem_map, List.mem_range] at hc
  obtain ⟨i, _, hci⟩ := hc
  rw [← hci, List.length_take]
  exact min_le_left _ _

theorem lt_ceil_div_mul_lt (i n k : Nat) (hk : 1 ≤ k) (hi : i < (n + k - 1) / k) :
    i * k < n := by
  have h2 : (i + 1) * k ≤ n + k - 1 := (Nat.le_div_iff_mul_le hk).mp hi
  have hik : k ≤ (i + 1) * k := Nat.le_mul_of_pos_left k (by omega)
  have hexp : (i + 1) * k = i * k + k := Nat.succ_mul i k
  omega

theorem pyRangeChunks_ne_nil {α : Type} (k : Nat) (l : List α) (hk : 1 ≤ k) :
    ∀ c ∈ pyRangeChunks k l, c ≠ [] := by
  intro c hc
  simp only [pyRangeChunks, List.mem_map, List.mem_range] at hc
  obtain ⟨i, hi, hci⟩ := hc
  have hik : i * k < l.length := lt_ceil_div_mul_lt i l.length k hk hi
  rw [← hci]
  have hdroplen : 0 < (l.drop (i * k)).length := by
    simp only [List.length_drop]; omega
  intro hnil
  have := congrArg List.length hnil
  simp only [List.length_take, List.length_nil] at this
  omega

theorem pyRangeChunks_mem_of_mem {α : Type} (k : Nat) (l : List α) :
    ∀ c ∈ pyRangeChunks k l, ∀ x ∈ c, x ∈ l := by
  intro c hc x hx
  simp only [pyRangeChunks, List.mem_map, List.mem_range] at hc
  obtain ⟨i, _, hci⟩ := hc
  rw [← hci] at hx
  exact List.mem_of_mem_drop (List.mem_of_mem_take hx)

/-! ## Batching-engine correctness -/

theorem split_bundle_identifiers_spec (inst0 : DSInstrument) (f : Nat)
    (hf1 : 1 ≤ f) (hf2 : f ≤ 50) (batch : List Str) (hbne : batch ≠ [])
    (hbfree : ∀ x ∈ batch, ',' ∉ x) :
    (∀ chunk ∈ split_bundle_identifiers { inst0 with value := joinChar ',' batch } f,
      chunk.identifiers.length ≤ 50 ∧ chunk.identifiers.length * f ≤ 100) ∧
    ((split_bundle_identifiers { inst0 with value := joinChar ',' batch } f).map
      (fun chunk => chunk.identifiers.length * f)).sum = batch.length * f ∧
    ((split_bundle_identifiers { inst0 with value := joinChar ',' batch } f).map
      DSInstrument.identifiers).flatten = batch := by
  have hk2 : 1 ≤ min MAX_INSTRUMENTS_PER_REQUEST (MAX_ITEMS_PER_REQUEST / f) := by
    apply le_min
    · simp [MAX_INSTRUMENTS_PER_REQUEST]
    · rw [Nat.one_le_div_iff (by omega)]
      simp only [MAX_ITEMS_PER_REQUEST]
      omega
  have hident :
      ({ inst0 with value := joinChar ',' batch } : DSInstrument).identifiers = batch :=
    splitOnChar_joinChar ',' batch hbne hbfree
  simp only [split_bundle_identifiers, hident]
  set k2 := min MAX_INSTRUMENTS_PER_REQUEST (MAX_ITEMS_PER_REQUEST / f) with hk2def
  have hchunk_id : ∀ c ∈ pyRangeChunks k2 batch,
      ({ inst0 with value := joinChar ',' c } : DSInstrument).identifiers = c := by
    intro c hc
    exact splitOnChar_joinChar ',' c (pyRangeChunks_ne_nil k2 batch hk2 c hc)
      (fun x hx => hbfree x (pyRangeChunks_mem_of_mem k2 batch c hc x hx))
  refine ⟨?_, ?_, ?_⟩
  · intro chunk hchunk
    simp only [List.mem_map] at hchunk
    obtain ⟨c, hc, rfl⟩ := hchunk
    rw [hchunk_id c hc]
    have hlen : c.length ≤ k2 := pyRangeChunks_length_le k2 batch c hc
    constructor
    · calc c.length ≤ k2 := hlen
        _ ≤ MAX_INSTRUMENTS_PER_REQUEST := min_le_left _ _
        _ ≤ 50 := le_refl _
    · calc c.length * f ≤ (MAX_ITEMS_PER_REQUEST / f) * f :=
          Nat.mul_le_mul_right f (le_trans hlen (min_le_right _ _))
        _ ≤ MAX_ITEMS_PER_REQUEST := Nat.div_mul_le_self _ _
        _ ≤ 100 := le_refl _
  · rw [List.map_map]
    have hmc : ((pyRangeChunks k2 batch).map
        ((fun chunk : DSInstrument => chunk.identifiers.length * f) ∘
          (fun c => { inst0 with value := joinChar ',' c }))) =
        (pyRangeChunks k2 batch).map (fun c => c.length * f) := by
      apply List.map_congr_left
      intro c hc
      simp only [Function.comp_apply, hchunk_id c hc]
    rw [hmc, List.sum_map_mul_right]
    have : ((pyRangeChunks k2 batch).map List.length).sum =
        (pyRangeChunks k2 batch).flatten.length := (List.length_flatten _).symm
    rw [this, pyRangeChunks_flatten k2 hk2 batch]
  · rw [List.map_map]
    have hmc : ((pyRangeChunks k2 batch).map
        (DSInstrument.identifiers ∘ (fun c => { inst0 with value := joinChar ',' c }))) =
        (pyRangeChunks k2 batch).map id := by
      apply List.map_congr_left
      intro c hc
      simp only [Function.comp_apply, hchunk_id c hc, id]
    rw [hmc, List.map_id, pyRangeChunks_flatten k2 hk2 batch]

/-- C1: for `1 ≤ f ≤ 50`, `bundle_identifiers` succeeds; every request-level
chunk has at most 50 identifiers and `chunk_size * f ≤ 100`; every bundle's
identifiers-times-fields total is at most 500; and concatenating all chunks'
identifier lists, in order, reproduces the instrument's identifier list. -/
theorem bundle_identifiers_limits (instrument : DSInstrument) (f : Nat)
    (hf1 : 1 ≤ f) (hf2 : f ≤ 50) :
    ∃ bundles : List (List DSInstrument),
      bundle_identifiers instrument f = Except.ok bundles ∧
      (∀ b ∈ bundles, ∀ chunk ∈ b,
        chunk.identifiers.length ≤ 50 ∧ chunk.identifiers.length * f ≤ 100) ∧
      (∀ b ∈ bundles,
        (b.map (fun chunk => chunk.identifiers.length * f)).sum ≤ 500) ∧
      (bundles.map (fun b => (b.map DSInstrument.identifiers).flatten)).flatten
        = instrument.identifiers := by
  have hk1 : 1 ≤ MAX_ITEMS_PER_BUNDLE / f := by
    rw [Nat.one_le_div_iff (by omega)]
    simp only [MAX_ITEMS_PER_BUNDLE]
    omega
  set ids := instrument.identifiers with hids
  have hids_free : ∀ x ∈ ids, ',' ∉ x :=
    mem_splitOnChar_not_mem ',' instrument.value
  set k1 := MAX_ITEMS_PER_BUNDLE / f with hk1def
  have hbatch : ∀ batch ∈ pyRangeChunks k1 ids,
      batch ≠ [] ∧ (∀ x ∈ batch, ',' ∉ x) ∧ batch.length ≤ k1 := by
    intro batch hb
    exact ⟨pyRangeChunks_ne_nil k1 ids hk1 batch hb,
      fun x hx => hids_free x (pyRangeChunks_mem_of_mem k1 ids batch hb x hx),
      pyRangeChunks_length_le k1 ids batch hb⟩
  refine ⟨(pyRangeChunks k1 ids).map (fun batch =>
      split_bundle_identifiers
        { instrument with value := joinChar ',' batch } f), ?_, ?_, ?_, ?_⟩
  · simp only [bundle_identifiers, bundle_identifiers_ids,
      MAX_DATATYPES_PER_REQUEST]
    rw [if_neg (by omega), if_neg (by omega)]
  · intro b hb chunk hchunk
    simp only [List.mem_map] at hb
    obtain ⟨batch, hbatchmem, rfl⟩ := hb
    obtain ⟨h1, h2, _⟩ := hbatch batch hbatchmem
    exact (split_bundle_identifiers_spec instrument f hf1 hf2 batch h1 h2).1
      chunk hchunk
  · intro b hb
    simp only [List.mem_map] at hb
    obtain ⟨batch, hbatchmem, rfl⟩ := hb
    obtain ⟨h1, h2, h3⟩ := hbatch batch hbatchmem
    rw [(split_bundle_identifiers_spec instrument f hf1 hf2 batch h1 h2).2.1]
    calc batch.length * f ≤ k1 * f := Nat.mul_le_mul_right f h3
      _ ≤ MAX_ITEMS_PER_BUNDLE := Nat.div_mul_le_self _ _
      _ ≤ 500 := le_refl _
  · rw [List.map_map]
    have hmc : ((pyRangeChunks k1 ids).map
        ((fun b : List DSInstrument => (b.map DSInstrument.identifiers).flatten) ∘
          (fun batch => split_bundle_identifiers
            { instrument with value := joinChar ',' batch } f))) =
        (pyRangeChunks k1 ids).map id := by
      apply List.map_congr_left
      intro batch hbmem
      obtain ⟨h1, h2, _⟩ := hbatch batch hbmem
      simp only [Function.comp_apply, id]
      exact (split_bundle_identifiers_spec instrument f hf1 hf2 batch h1 h2).2.2
    rw [hmc, List.map_id, pyRangeChunks_flatten k1 hk1 ids]

/-- Witness for C1 at a concrete instrument and field count. -/
theorem bundle_identifiers_limits_witness :
    (1 ≤ 2 ∧ 2 ≤ 50) ∧
    ∃ bundles : List (List DSInstrument),
      bundle_identifiers ⟨"IBM,MSFT,VOD".toList, []⟩ 2 = Except.ok bundles ∧
      (∀ b ∈ bundles, ∀ chunk ∈ b,
        chunk.identifiers.length ≤ 50 ∧ chunk.identifiers.length * 2 ≤ 100) ∧
      (∀ b ∈ bundles,
        (b.map (fun chunk => chunk.identifiers.length * 2)).sum ≤ 500) ∧
      (bundles.map (fun b => (b.map DSInstrument.identifiers).flatten)).flatten
        = DSInstrument.identifiers ⟨"IBM,MSFT,VOD".toList, []⟩ :=
  ⟨by omega, bundle_identifiers_limits ⟨"IBM,MSFT,VOD".toList, []⟩ 2 (by omega) (by omega)⟩

/-- C9: on an empty identifier list the engine returns no bundles and raises
nothing (stated on the body of `bundle_identifiers`, which depends on the
instrument's identifier list; field counts in the valid range `1..50`). -/
theorem bundle_identifiers_empty_list (inst : DSInstrument) (f : Nat)
    (hf1 : 1 ≤ f) (hf2 : f ≤ 50) :
    bundle_identifiers_ids inst [] f = Except.ok [] := by
  simp only [bundle_identifiers_ids, MAX_DATATYPES_PER_REQUEST]
  rw [if_neg (by omega), if_neg (by omega), pyRangeChunks_nil]
  rfl

/-- Witness for C9 at a concrete instrument and field count. -/
theorem bundle_identifiers_empty_list_witness :
    (1 ≤ 5 ∧ 5 ≤ 50) ∧
    bundle_identifiers_ids ⟨"IBM".toList, []⟩ [] 5 = Except.ok [] :=
  ⟨by omega, bundle_identifiers_empty_list ⟨"IBM".toList, []⟩ 5 (by omega) (by omega)⟩

/-- C10: the guard of `bundle_identifiers` rejects exactly the field counts
above 50 with a `ValueError`; a field count of 0 reaches the chunk-size
division and fails with a `ZeroDivisionError`; for every field count in
`1..50` the call returns a bundle list without any error. -/
theorem bundle_identifiers_field_count_guard (inst : DSInstrument) (f : Nat) :
    (bundle_identifiers inst 0 = Except.error PyException.zeroDivisionError) ∧
    (50 < f → bundle_identifiers inst f = Except.error PyException.valueError) ∧
    (1 ≤ f → f ≤ 50 →
      ∃ bundles, bundle_identifiers inst f = Except.ok bundles) := by
  refine ⟨?_, ?_, ?_⟩
  · simp [bundle_identifiers, bundle_identifiers_ids, MAX_DATATYPES_PER_REQUEST]
  · intro h
    simp only [bundle_identifiers, bundle_identifiers_ids,
      MAX_DATATYPES_PER_REQUEST]
    rw [if_pos (by omega)]
  · intro h1 h2
    obtain ⟨bundles, hb, _⟩ := bundle_identifiers_limits inst f h1 h2
    exact ⟨bundles, hb⟩

/-- Witness for C10 at concrete field counts 0, 51 and 3. -/
theorem bundle_identifiers_field_count_guard_witness :
    (bundle_identifiers ⟨"A,B".toList, []⟩ 0
      = Except.error PyException.zeroDivisionError) ∧
    (bundle_identifiers ⟨"A,B".toList, []⟩ 51
      = Except.error PyException.valueError) ∧
    (∃ bundles, bundle_identifiers ⟨"A,B".toList, []⟩ 3 = Except.ok bundles) :=
  ⟨(bundle_identifiers_field_count_guard ⟨"A,B".toList, []⟩ 0).1,
    (bundle_identifiers_field_count_guard ⟨"A,B".toList, []⟩ 51).2.1 (by omega),
    (bundle_identifiers_field_count_guard ⟨"A,B".toList, []⟩ 3).2.2 (by omega) (by omega)⟩

/-! ## The date-literal codec (`converters.convert_date`) -/

/-- Characters matched by the regex `[0-9+]+` in `convert_date`. -/
def isRunChar (c : Char) : Bool := c.isDigit || c = '+'

/-- The maximal run of `[0-9+]` characters starting at the head. -/
def takeRun : Str → Str
  | [] => []
  | c :: rest => if isRunChar c then c :: takeRun rest else []

/-- Models `re.search(r"[0-9+]+", s).group(0)`: the first maximal run of `[0-9+]`
characters, if any. -/
def extractRun : Str → Option Str
  | [] => none
  | c :: rest => if isRunChar c then some (c :: takeRun rest) else extractRun rest

/-- Numeric value of a digit string. -/
def digitsToNat (s : Str) : Nat := s.foldl (fun a c => 10 * a + (c.toNat - 48)) 0

/-- Python `int(s)` on the strings that reach it inside `convert_date` (pieces
of a `[0-9+]` run after splitting at `+`, hence digit-only); an empty string
raises `ValueError`. -/
def parsePyInt (s : Str) : Except PyException Nat :=
  if s ≠ [] ∧ s.all Char.isDigit then Except.ok (digitsToNat s)
  else Except.error PyException.valueError

/-- A timezone-aware Python datetime at millisecond precision: the instant as
milliseconds since the Unix epoch, plus the `tzinfo` UTC offset in minutes
(the offset does not shift the instant). -/
structure PyDatetime where
  epochMs : Int
  tzOffsetMinutes : Int
deriving DecidableEq, Repr

/-- Days from 1970-01-01 to a Gregorian calendar date (Howard Hinnant's
`days_from_civil`); used for the `datetime` range bounds and to pin epoch
values to civil dates in statements. -/
def daysFromCivil (y : Int) (m d : Nat) : Int :=
  let y1 : Int := if m ≤ 2 then y - 1 else y
  let era : Int := (if 0 ≤ y1 then y1 else y1 - 399) / 400
  let yoe : Int := y1 - era * 400
  let mp : Int := ((m : Int) + 9) % 12
  let doy : Int := (153 * mp + 2) / 5 + (d : Int) - 1
  let doe : Int := yoe * 365 + yoe / 4 - yoe / 100 + doy
  era * 146097 + doe - 719468

/-- The first instant Python's `datetime` supports, in epoch milliseconds:
0001-01-01T00:00:00 (`datetime.min`, year `MINYEAR = 1`). -/
def MIN_EPOCH_MS : Int := 86400000 * daysFromCivil 1 1 1

/-- The last whole-millisecond instant Python's `datetime` supports:
9999-12-31T23:59:59.999 (`datetime.max` has year `MAXYEAR = 9999`). -/
def MAX_EPOCH_MS : Int := 86400000 * daysFromCivil 10000 1 1 - 1

/-- Models `dt.datetime.fromtimestamp(ms / 1000, tz)` at millisecond
precision.  Both the UTC instant and its conversion into `tz` (`fromutc` adds
the offset) must lie within `datetime`'s supported range, else Python raises
(`ValueError`/`OverflowError`/`OSError` depending on magnitude and platform;
the library never catches any of them, so one error value suffices).  The
float division `ms / 1000` and the microsecond rounding inside
`fromtimestamp` are exact at millisecond precision throughout the supported
range: there `ms / 1000 ≤ 253402300800` seconds, where a double's relative
error `2^-53` amounts to less than 0.03 ms, and the first out-of-range
whole-millisecond instant in either direction is second-aligned, hence
exactly representable — so the range check and the resulting instant agree
with Python at every whole millisecond. -/
def pyFromtimestamp (ms : Nat) (offsetMinutes : Int) : Except Str PyDatetime :=
  if MIN_EPOCH_MS ≤ (ms : Int) ∧ (ms : Int) ≤ MAX_EPOCH_MS ∧
      MIN_EPOCH_MS ≤ (ms : Int) + offsetMinutes * 60000 ∧
      (ms : Int) + offsetMinutes * 60000 ≤ MAX_EPOCH_MS then
    Except.ok ⟨(ms : Int), offsetMinutes⟩
  else Except.error ("timestamp out of range".toList)

/-- Models `convert_date` (`converters.py`): search for the first `[0-9+]+` run; no
run raises `ValueError` embedding the input in the message; if the run
contains `+`, unpack it at `+` into a timestamp and an offset (hours = first
two offset characters, minutes = the rest), otherwise assume UTC.
`dt.timezone(dt.timedelta(hours=h, minutes=m))` requires the offset to lie
strictly between -24 and +24 hours, else it raises `ValueError`; the final
`fromtimestamp` call enforces `datetime`'s range.  Other `ValueError`s (bad
unpack, `int("")`) carry their own messages. -/
def convert_date (date_str : Str) : Except Str PyDatetime :=
  match extractRun date_str with
  | none => Except.error ("invalid date string: ".toList ++ date_str)
  | some timestamp =>
    if '+' ∈ timestamp then
      match splitOnChar '+' timestamp with
      | [ts, offset] =>
        match parsePyInt (offset.take 2), parsePyInt (offset.drop 2) with
        | Except.ok h, Except.ok m =>
          let offsetMinutes : Int := 60 * (h : Int) + (m : Int)
          if -1440 < offsetMinutes ∧ offsetMinutes < 1440 then
            match parsePyInt ts with
            | Except.ok tsv => pyFromtimestamp tsv offsetMinutes
            | Except.error _ => Except.error ("ValueError".toList)
          else
            Except.error
              ("ValueError: offset must be strictly between -24 and 24 hours".toList)
        | _, _ => Except.error ("ValueError".toList)
      | _ => Except.error ("ValueError".toList)
    else
      match parsePyInt timestamp with
      | Except.ok tsv => pyFromtimestamp tsv 0
      | Except.error _ => Except.error ("ValueError".toList)

/-- The vendor date literal `/Date(<ms digits>[+HHMM])/`. -/
def dateLiteral (ms : Str) (offset : Option (Char × Char × Char × Char)) : Str :=
  "/Date(".toList ++ ms ++
    (match offset with
     | some (a, b, c, d) => ['+', a, b, c, d]
     | none => []) ++ ")/".toList

theorem takeRun_all_append (r t : Str) (hr : ∀ c ∈ r, isRunChar c = true) :
    takeRun (r ++ t) = r ++ takeRun t := by
  induction r with
  | nil => simp
  | cons c rest ih =>
    simp only [List.cons_append, takeRun, hr c (by simp), if_true]
    show c :: takeRun (rest ++ t) = c :: (rest ++ takeRun t)
    rw [ih (fun x hx => hr x (by simp [hx]))]

theorem extractRun_skip_runfree (p s : Str) (hp : ∀ c ∈ p, isRunChar c = false) :
    extractRun (p ++ s) = extractRun s := by
  induction p with
  | nil => simp
  | cons c rest ih =>
    simp only [List.cons_append, extractRun, hp c (by simp)]
    simp only [Bool.false_eq_true, if_false]
    exact ih (fun x hx => hp x (by simp [hx]))

theorem extractRun_run_head (c : Char) (s : Str) (hc : isRunChar c = true) :
    extractRun (c :: s) = some (c :: takeRun s) := by
  simp [extractRun, hc]

theorem extractRun_none (s : Str) (h : ∀ c ∈ s, isRunChar c = false) :
    extractRun s = none := by
  have := extractRun_skip_runfree s [] h
  simpa using this

theorem digit_ne_plus (c : Char) (h : c.isDigit = true) : c ≠ '+' := by
  intro hc
  subst hc
  simp at h

theorem digit_isRunChar (c : Char) (h : c.isDigit = true) : isRunChar c = true := by
  simp [isRunChar, h]

theorem parsePyInt_digits (s : Str) (hne : s ≠ [])
    (hdig : ∀ c ∈ s, c.isDigit = true) : parsePyInt s = Except.ok (digitsToNat s) := by
  rw [parsePyInt, if_pos ⟨hne, List.all_eq_true.mpr hdig⟩]

/-- C2 (amended): for literals with a `+HHMM` offset, decoding returns the
embedded epoch milliseconds with a tz offset of `HHMM` (hours = first two
offset digits, minutes = last two), provided the offset stays strictly below
24 hours and the timestamp stays inside `datetime`'s supported range; with no
offset UTC is assumed; an offset of 99 hours and a 20-digit epoch raise
untyped errors; the example literal decodes to the UTC midnight instant of
civil date 2023-04-17; a string with no `[0-9+]` run is a `ValueError`
embedding the offending string.  (A `-HHMM` offset is not parsed: `-` ends
the digit run, see the counterexample.) -/
theorem convert_date_literal_spec :
    (∀ ms : Str, ms ≠ [] → (∀ c ∈ ms, c.isDigit = true) →
      ∀ h1 h2 m1 m2 : Char, h1.isDigit = true → h2.isDigit = true →
        m1.isDigit = true → m2.isDigit = true →
        60 * digitsToNat [h1, h2] + digitsToNat [m1, m2] < 1440 →
        (digitsToNat ms : Int)
            + (60 * (digitsToNat [h1, h2] : Int) + (digitsToNat [m1, m2] : Int))
              * 60000 ≤ MAX_EPOCH_MS →
        convert_date (dateLiteral ms (some (h1, h2, m1, m2)))
          = Except.ok ⟨(digitsToNat ms : Int),
              60 * (digitsToNat [h1, h2] : Int) + (digitsToNat [m1, m2] : Int)⟩) ∧
    (∀ ms : Str, ms ≠ [] → (∀ c ∈ ms, c.isDigit = true) →
      (digitsToNat ms : Int) ≤ MAX_EPOCH_MS →
      convert_date (dateLiteral ms none)
        = Except.ok ⟨(digitsToNat ms : Int), 0⟩) ∧
    (convert_date ("/Date(1+9900)/".toList)
      = Except.error
          ("ValueError: offset must be strictly between -24 and 24 hours".toList)) ∧
    (convert_date ("/Date(99999999999999999999)/".toList)
      = Except.error ("timestamp out of range".toList)) ∧
    (convert_date ("/Date(1681689600000+0000)/".toList)
        = Except.ok ⟨1681689600000, 0⟩ ∧
      (1681689600000 : Int) = 86400000 * daysFromCivil 2023 4 17) ∧
    (∀ s : Str, (∀ c ∈ s, isRunChar c = false) →
      convert_date s = Except.error ("invalid date string: ".toList ++ s)) := by
  refine ⟨?_, ?_, by rfl, by rfl, ⟨by rfl, by decide⟩, ?_⟩
  · intro ms hne hdig h1 h2 m1 m2 hd1 hd2 hd3 hd4 hoffb hrange
    have hminval : MIN_EPOCH_MS = -62135596800000 := by decide
    have hmaxval : MAX_EPOCH_MS = 253402300799999 := by decide
    obtain ⟨m0, ms1, rfl⟩ := List.exists_cons_of_ne_nil hne
    have hlit : dateLiteral (m0 :: ms1) (some (h1, h2, m1, m2))
        = "/Date(".toList ++ (m0 :: (ms1 ++ ('+' :: [h1, h2, m1, m2] ++ ")/".toList))) := by
      simp [dateLiteral, List.append_assoc]
    have hoffrun : ∀ c ∈ ('+' :: [h1, h2, m1, m2]), isRunChar c = true := by
      intro c hc
      simp only [List.mem_cons] at hc
      rcases hc with rfl | rfl | rfl | rfl | rfl | h
      · simp [isRunChar]
      · exact digit_isRunChar _ hd1
      · exact digit_isRunChar _ hd2
      · exact digit_isRunChar _ hd3
      · exact digit_isRunChar _ hd4
      · simp at h
    have hrun : extractRun (dateLiteral (m0 :: ms1) (some (h1, h2, m1, m2)))
        = some ((m0 :: ms1) ++ '+' :: [h1, h2, m1, m2]) := by
      rw [hlit, extractRun_skip_runfree _ _ (by decide),
        extractRun_run_head m0 _ (digit_isRunChar m0 (hdig m0 (by simp))),
        takeRun_all_append ms1 _ (fun c hc => digit_isRunChar c (hdig c (by simp [hc]))),
        takeRun_all_append ('+' :: [h1, h2, m1, m2]) _ hoffrun]
      simp [takeRun, isRunChar, List.append_assoc]
    have hplusmem : '+' ∈ (m0 :: ms1) ++ '+' :: [h1, h2, m1, m2] := by simp
    have hnoplus : '+' ∉ (m0 :: ms1) := by
      intro hmem
      exact digit_ne_plus '+' (hdig '+' hmem) rfl
    have hsplit : splitOnChar '+' ((m0 :: ms1) ++ '+' :: [h1, h2, m1, m2])
        = [m0 :: ms1, [h1, h2, m1, m2]] := by
      rw [splitOnChar_append '+' _ _ hnoplus,
        splitOnChar_not_mem '+' [h1, h2, m1, m2] (by
          intro hmem
          simp only [List.mem_cons] at hmem
          rcases hmem with h | h | h | h | h
          · exact digit_ne_plus h1 hd1 h.symm
          · exact digit_ne_plus h2 hd2 h.symm
          · exact digit_ne_plus m1 hd3 h.symm
          · exact digit_ne_plus m2 hd4 h.symm
          · simp at h)]
    rw [convert_date, hrun]
    simp only [hplusmem, if_true, hsplit]
    rw [show ([h1, h2, m1, m2] : Str).take 2 = [h1, h2] from rfl,
      show ([h1, h2, m1, m2] : Str).drop 2 = [m1, m2] from rfl]
    simp only [parsePyInt_digits [h1, h2] (by simp) (by
        intro c hc
        rcases List.mem_cons.mp hc with rfl | hc2
        · exact hd1
        · rcases List.mem_cons.mp hc2 with rfl | hc3
          · exact hd2
          · simp at hc3),
      parsePyInt_digits [m1, m2] (by simp) (by
        intro c hc
        rcases List.mem_cons.mp hc with rfl | hc2
        · exact hd3
        · rcases List.mem_cons.mp hc2 with rfl | hc3
          · exact hd4
          · simp at hc3),
      parsePyInt_digits (m0 :: ms1) (by simp) hdig]
    rw [if_pos (show (-1440 : Int)
          < 60 * (digitsToNat [h1, h2] : Int) + (digitsToNat [m1, m2] : Int) ∧
        60 * (digitsToNat [h1, h2] : Int) + (digitsToNat [m1, m2] : Int) < 1440
      from ⟨by omega, by omega⟩)]
    rw [pyFromtimestamp, if_pos ⟨by omega, by omega, by omega, by omega⟩]
  · intro ms hne hdig hrange
    have hminval : MIN_EPOCH_MS = -62135596800000 := by decide
    have hmaxval : MAX_EPOCH_MS = 253402300799999 := by decide
    obtain ⟨m0, ms1, rfl⟩ := List.exists_cons_of_ne_nil hne
    have hlit : dateLiteral (m0 :: ms1) none
        = "/Date(".toList ++ (m0 :: (ms1 ++ ")/".toList)) := by
      simp [dateLiteral, List.append_assoc]
    have hrun : extractRun (dateLiteral (m0 :: ms1) none) = some (m0 :: ms1) := by
      rw [hlit, extractRun_skip_runfree _ _ (by decide),
        extractRun_run_head m0 _ (digit_isRunChar m0 (hdig m0 (by simp))),
        takeRun_all_append ms1 _ (fun c hc => digit_isRunChar c (hdig c (by simp [hc])))]
      simp [takeRun, isRunChar]
    have hnoplus : '+' ∉ (m0 :: ms1) := by
      intro hmem
      exact digit_ne_plus '+' (hdig '+' hmem) rfl
    rw [convert_date, hrun]
    simp only [hnoplus, if_false]
    simp only [parsePyInt_digits (m0 :: ms1) (by simp) hdig]
    rw [pyFromtimestamp, if_pos ⟨by omega, by omega, by omega, by omega⟩]
  · intro s h
    rw [convert_date, extractRun_none s h]

/-- Witness for C2's amended theorem: a literal with offset `+0130`, one
without an offset, and a run-free string. -/
theorem convert_date_literal_spec_witness :
    convert_date (dateLiteral [Char.ofNat 53] (some ('0', '1', '3', '0')))
      = Except.ok ⟨(digitsToNat [Char.ofNat 53] : Int),
          60 * (digitsToNat ['0', '1'] : Int) + (digitsToNat ['3', '0'] : Int)⟩ ∧
    convert_date (dateLiteral [Char.ofNat 53] none)
      = Except.ok ⟨(digitsToNat [Char.ofNat 53] : Int), 0⟩ ∧
    convert_date ("no digits here".toList)
      = Except.error ("invalid date string: ".toList ++ "no digits here".toList) :=
  ⟨convert_date_literal_spec.1 [Char.ofNat 53] (by decide) (by decide)
      '0' '1' '3' '0' (by decide) (by decide) (by decide) (by decide)
      (by decide) (by decide),
    convert_date_literal_spec.2.1 [Char.ofNat 53] (by decide) (by decide)
      (by decide),
    convert_date_literal_spec.2.2.2.2.2 ("no digits here".toList) (by decide)⟩

/-- Counterexample to C2 as stated: in `"/Date(0-0500)/"` the `-0500` offset
is a signed 4-digit HHMM offset, but `-` is not matched by the `[0-9+]+` run,
so the offset is dropped and UTC (offset 0) is returned instead of ±05:00. -/
theorem convert_date_negative_offset_counterexample :
    convert_date ("/Date(0-0500)/".toList) = Except.ok ⟨0, 0⟩ ∧
    ¬ ∃ d : PyDatetime, convert_date ("/Date(0-0500)/".toList) = Except.ok d ∧
        (d.tzOffsetMinutes = 300 ∨ d.tzOffsetMinutes = -300) := by
  refine ⟨rfl, ?_⟩
  rintro ⟨d, hd, htz⟩
  rw [show convert_date ("/Date(0-0500)/".toList) = Except.ok ⟨0, 0⟩ from rfl] at hd
  injection hd with hd1
  subst hd1
  rcases htz with h | h <;> simp at h

/-! ## Response model (`ds_response.py`, msgspec-validated payloads) -/

/-- A Python runtime value as it appears in decoded records: `None`, booleans,
integers, floats (embedded exactly as rationals; the flattener only moves
floats around, never computes with them), strings, datetimes and lists. -/
inductive PyObj where
  | none
  | bool (b : Bool)
  | int (n : Int)
  | float (q : Rat)
  | str (s : Str)
  | datetime (d : PyDatetime)
  | list (l : List PyObj)

/-- The typed payload of each `DSSymbolResponseValue` variant, one constructor
per tag of `DSSymbolResponseValueType`, with the payload type declared by the
corresponding msgspec struct in `ds_response.py` (note `DSBoolArray.value` is
a `str`, iterated character-wise by `parse_bool_array`). -/
inductive DSValuePayload where
  | error (v : Str)
  | empty (v : PyObj)
  | bool (v : Str)
  | int (v : Int)
  | dateTime (v : Str)
  | double (v : Rat)
  | string (v : Str)
  | boolArray (v : Str)
  | intArray (v : List Int)
  | dateTimeArray (v : List Str)
  | doubleArray (v : List Rat)
  | stringArray (v : List Str)
  | objectArray (v : List PyObj)

/-- Models `symbol_value.type == DSSymbolResponseValueType.ERROR`. -/
def DSValuePayload.isError : DSValuePayload → Bool
  | .error _ => true
  | _ => false

/-- Models `symbol_value.type == DSSymbolResponseValueType.STRING`. -/
def DSValuePayload.isString : DSValuePayload → Bool
  | .string _ => true
  | _ => false

/-- The raw string of an `Error` payload (`symbol_value.value` on the error
path; only read when `isError`). -/
def DSValuePayload.errorMessage : DSValuePayload → Str
  | .error v => v
  | _ => []

/-- A `DSSymbolResponseValue`: symbol, optional currency, tagged payload. -/
structure DSSymbolResponseValue where
  symbol : Str
  currency : Option Str
  payload : DSValuePayload

/-- A `DSDataTypeResponseValue`: a field code and its symbol values. -/
structure DSDataTypeResponseValue where
  data_type : Str
  symbol_values : List DSSymbolResponseValue

/-- A `DSStringKVPair` of the response metadata lists: `key` is
`Optional[str]`, `value` untyped. -/
structure ResponseKVPair where
  key : Option Str
  value : PyObj

/-- A `DSDataResponse`: field/value tree, optional date axis (raw vendor date
literals), optional name maps, optional extra metadata, optional tag. -/
structure DSDataResponse where
  data_type_values : List DSDataTypeResponseValue
  dates : Option (List Str)
  data_type_names : Option (List ResponseKVPair)
  symbol_names : Option (List ResponseKVPair)
  additional_responses : Option (List ResponseKVPair)
  tag : Option Str

/-! ## Flattening (`parse.py`) -/

/-- Models `Error` (`parse.py`): one collected service-level error value. -/
structure Error where
  field : Str
  symbol : Str
  message : Str
deriving DecidableEq, Repr

/-- Models `Meta` (`parse.py`): name maps, tag list and per-symbol currency maps. -/
structure Meta where
  data_type_names : List (Option Str × PyObj) := []
  symbol_names : List (Option Str × PyObj) := []
  additional_responses : List (Option Str × PyObj) := []
  tags : List Str := []
  currencies : List (Str × List (Str × Option Str)) := []

/-- Models `Meta.merge`: `{**self.x, **other.x}` on the three name maps and the
currency map, list concatenation on tags. -/
def Meta.merge (self other : Meta) : Meta where
  data_type_names := dictUpdate self.data_type_names other.data_type_names
  symbol_names := dictUpdate self.symbol_names other.symbol_names
  additional_responses :=
    dictUpdate self.additional_responses other.additional_responses
  tags := self.tags ++ other.tags
  currencies := dictUpdate self.currencies other.currencies

/-- One flat record: an ordered dict from column name to value. -/
abbrev Record := List (Str × PyObj)

/-- The mutable record accumulator: a dict keyed by `(symbol, date)`. -/
abbrev RecordDict := List ((Str × Str) × Record)

/-- The `meta.currencies` accumulator: symbol to field to currency. -/
abbrev CurrencyDict := List (Str × List (Str × Option Str))

/-- Models `ParsedResponse` (`parse.py`). -/
structure ParsedResponse where
  records : List Record := []
  errors : List Error := []
  meta : Meta := {}

/-- Models `BOOL_MAPPING` lookup of `parse_boolean_value`; an unknown literal raises
`KeyError`. -/
def parse_boolean_value (s : Str) : Except PyException Bool :=
  if s = "Y".toList ∨ s = "true".toList ∨ s = "True".toList then Except.ok true
  else if s = "N".toList ∨ s = "false".toList ∨ s = "False".toList then Except.ok false
  else Except.error PyException.keyError

/-- Apply `_CONVERSION_MAP[symbol_value.type]` to the payload.  Scalar `int`,
`float` and `str` conversions are identities on the msgspec-typed payloads;
`parse_bool_array` iterates the (string-typed) payload character-wise;
date conversions delegate to `convert_date` and raise `ValueError` on
failure. -/
def applyConversion : DSValuePayload → Except PyException PyObj
  | .error _ => Except.ok PyObj.none
  | .empty _ => Except.ok PyObj.none
  | .bool s => (parse_boolean_value s).map PyObj.bool
  | .int n => Except.ok (PyObj.int n)
  | .dateTime s =>
    match convert_date s with
    | Except.ok d => Except.ok (PyObj.datetime d)
    | Except.error _ => Except.error PyException.valueError
  | .double q => Except.ok (PyObj.float q)
  | .string s => Except.ok (PyObj.str s)
  | .boolArray s =>
    (s.mapM (fun c => parse_boolean_value [c])).map
      (fun (bs : List Bool) => PyObj.list (bs.map PyObj.bool))
  | .intArray l => Except.ok (PyObj.list (l.map PyObj.int))
  | .dateTimeArray l =>
    (l.mapM (fun s =>
      match convert_date s with
      | Except.ok d => Except.ok d
      | Except.error _ => Except.error PyException.valueError)).map
      (fun (ds : List PyDatetime) => PyObj.list (ds.map PyObj.datetime))
  | .doubleArray l => Except.ok (PyObj.list (l.map PyObj.float))
  | .stringArray l => Except.ok (PyObj.list (l.map PyObj.str))
  | .objectArray l => Except.ok (PyObj.list l)

/-- Models `isinstance(value, list)` on a decoded value: the payload list when the
value is a Python list, else `none`. -/
def PyObj.listOf : PyObj → Option (List PyObj)
  | PyObj.list xs => Option.some xs
  | _ => Option.none

/-- Models `process_string_value`: `{"NA": None, "N": False, "Y": True}.get(v, v)`. -/
def process_string_value (v : PyObj) : PyObj :=
  match v with
  | PyObj.str s =>
    if s = "NA".toList then PyObj.none
    else if s = "N".toList then PyObj.bool false
    else if s = "Y".toList then PyObj.bool true
    else PyObj.str s
  | other => other

/-- Models `process_symbol_value` (`parse.py`): decode one symbol value and thread it
into the record accumulator and error list.  An `Error` variant appends one
`Error` record and fills every date slot with the absent value; an
array-shaped decoded value must match the date count; a scalar-shaped value
requires a single-date axis (`dates[0]` raises `IndexError` on an empty
axis). -/
def process_symbol_value (records : RecordDict) (errors : List Error)
    (field : Str) (dates : List Str) (symbol_value : DSSymbolResponseValue)
    (process_strings : Bool) : Except PyException (RecordDict × List Error) :=
  let is_error := symbol_value.payload.isError
  let errors1 :=
    if is_error then
      errors ++ [⟨field, symbol_value.symbol, symbol_value.payload.errorMessage⟩]
    else errors
  match applyConversion symbol_value.payload with
  | Except.error e => Except.error e
  | Except.ok v0 =>
    let value :=
      if symbol_value.payload.isString && process_strings then
        process_string_value v0
      else v0
    if is_error then
      Except.ok
        (dates.foldl
          (fun recs date => dict2Set recs (symbol_value.symbol, date) field value)
          records, errors1)
    else
      match PyObj.listOf value with
      | some xs =>
        if xs.length ≠ dates.length then
          Except.error (PyException.invalidResponse
            ("Number of values does not match number of dates.".toList))
        else
          Except.ok
            ((dates.zip xs).foldl
              (fun recs dx => dict2Set recs (symbol_value.symbol, dx.1) field dx.2)
              records, errors1)
      | none =>
        if 1 < dates.length then
          Except.error (PyException.invalidResponse
            ("More than one date found for single value.".toList))
        else
          match dates with
          | [] => Except.error PyException.indexError
          | d :: _ =>
            Except.ok
              (dict2Set records (symbol_value.symbol, d) field value, errors1)

/-- The inner loop of `parse_response` over one field's symbol values:
`meta.currencies[symbol][field] = currency` followed by
`process_symbol_value`. -/
def processSymbolValues (field : Str) (dates : List Str) (process_strings : Bool) :
    List DSSymbolResponseValue → RecordDict × List Error × CurrencyDict →
      Except PyException (RecordDict × List Error × CurrencyDict)
  | [], acc => Except.ok acc
  | sv :: rest, (records, errors, currencies) =>
    let currencies1 := dict2Set currencies sv.symbol field sv.currency
    match process_symbol_value records errors field dates sv process_strings with
    | Except.error e => Except.error e
    | Except.ok (records1, errors1) =>
      processSymbolValues field dates process_strings rest
        (records1, errors1, currencies1)

/-- The outer loop of `parse_response` over the data-type values. -/
def processDataTypeValues (dates : List Str) (process_strings : Bool) :
    List DSDataTypeResponseValue → RecordDict × List Error × CurrencyDict →
      Except PyException (RecordDict × List Error × CurrencyDict)
  | [], acc => Except.ok acc
  | dtv :: rest, acc =>
    match processSymbolValues dtv.data_type dates process_strings
        dtv.symbol_values acc with
    | Except.error e => Except.error e
    | Except.ok acc1 => processDataTypeValues dates process_strings rest acc1

/-- Models `parse_meta` (`parse.py`): truthiness-guarded dict comprehensions over the
name-map lists, plus the tag (a present but empty tag string is falsy and not
appended). -/
def parse_meta (response : DSDataResponse) : Meta where
  data_type_names :=
    match response.data_type_names with
    | some l => if l.isEmpty then [] else pairsToDict (l.map fun kv => (kv.key, kv.value))
    | none => []
  symbol_names :=
    match response.symbol_names with
    | some l => if l.isEmpty then [] else pairsToDict (l.map fun kv => (kv.key, kv.value))
    | none => []
  additional_responses :=
    match response.additional_responses with
    | some l => if l.isEmpty then [] else pairsToDict (l.map fun kv => (kv.key, kv.value))
    | none => []
  tags :=
    match response.tag with
    | some t => if t.isEmpty then [] else [t]
    | none => []
  currencies := []

/-- Models `parse_response` (`parse.py`): a missing date axis raises the typed
invalid-response error; otherwise decode every value into the record/error
accumulators and materialize the records, tagging each with its `symbol` and
`date`. -/
def parse_response (response : DSDataResponse) (process_strings : Bool) :
    Except PyException ParsedResponse :=
  match response.dates with
  | Option.none =>
    Except.error (PyException.invalidResponse
      ("Response does not contain dates. Probably the request was invalid.".toList))
  | Option.some dates =>
    let meta0 := parse_meta response
    match processDataTypeValues dates process_strings
        response.data_type_values ([], [], []) with
    | Except.error e => Except.error e
    | Except.ok (records, errors, currencies) =>
      Except.ok
        ⟨records.map (fun kv =>
            dictSet (dictSet kv.2 ("symbol".toList) (PyObj.str kv.1.1))
              ("date".toList) (PyObj.str kv.1.2)),
          errors, { meta0 with currencies := currencies }⟩

/-- The loop body of `responses_to_records`: catch `InvalidResponseError` and
skip, propagate any other exception, otherwise extend records and errors and
merge the meta. -/
def responsesToRecordsGo (process_strings : Bool) :
    List DSDataResponse → ParsedResponse → Except PyException ParsedResponse
  | [], acc => Except.ok acc
  | response :: rest, acc =>
    match parse_response response process_strings with
    | Except.error (PyException.invalidResponse _) =>
      responsesToRecordsGo process_strings rest acc
    | Except.error e => Except.error e
    | Except.ok parsed =>
      responsesToRecordsGo process_strings rest
        ⟨acc.records ++ parsed.records, acc.errors ++ parsed.errors,
          acc.meta.merge parsed.meta⟩

/-- Models `responses_to_records` (`parse.py`). -/
def responses_to_records (responses : List DSDataResponse)
    (process_strings : Bool) : Except PyException ParsedResponse :=
  responsesToRecordsGo process_strings responses ⟨[], [], {}⟩

/-! ## Dictionary lemmas -/

/-- Nested lookup `d[k][k2]` as an `Option`. -/
def dict2Get {κ κ2 ν : Type} [DecidableEq κ] [DecidableEq κ2]
    (d : List (κ × List (κ2 × ν))) (k : κ) (k2 : κ2) : Option ν :=
  (dictGet d k).bind (fun inner => dictGet inner k2)

theorem dictGet_dictSet_self {κ ν : Type} [DecidableEq κ]
    (d : List (κ × ν)) (k : κ) (v : ν) : dictGet (dictSet d k v) k = some v := by
  induction d with
  | nil => simp [dictSet, dictGet]
  | cons kv rest ih =>
    obtain ⟨k1, v1⟩ := kv
    by_cases h : k1 = k
    · simp [dictSet, dictGet, h]
    · simp [dictSet, dictGet, h, ih]

theorem dictGet_dictSet_ne {κ ν : Type} [DecidableEq κ]
    (d : List (κ × ν)) (k k2 : κ) (v : ν) (hne : k2 ≠ k) :
    dictGet (dictSet d k v) k2 = dictGet d k2 := by
  induction d with
  | nil => simp [dictSet, dictGet, Ne.symm hne]
  | cons kv rest ih =>
    obtain ⟨k1, v1⟩ := kv
    by_cases h : k1 = k
    · subst h
      simp [dictSet, dictGet, Ne.symm hne]
    · simp [dictSet, dictGet, h, ih]

theorem dictGet_eq_none_of_not_mem {κ ν : Type} [DecidableEq κ]
    (d : List (κ × ν)) (k : κ) (h : k ∉ d.map Prod.fst) : dictGet d k = none := by
  induction d with
  | nil => rfl
  | cons kv rest ih =>
    obtain ⟨k1, v1⟩ := kv
    simp only [List.map_cons, List.mem_cons, not_or] at h
    simp [dictGet, Ne.symm h.1, ih h.2]

theorem dictSet_eq_append_of_none {κ ν : Type} [DecidableEq κ]
    (d : List (κ × ν)) (k : κ) (v : ν) (h : dictGet d k = none) :
    dictSet d k v = d ++ [(k, v)] := by
  induction d with
  | nil => rfl
  | cons kv rest ih =>
    obtain ⟨k1, v1⟩ := kv
    simp only [dictGet] at h
    by_cases hk : k1 = k
    · simp [hk] at h
    · simp only [dictGet, if_neg hk] at h
      simp [dictSet, hk, ih h]

theorem dictGet_append_left_none {κ ν : Type} [DecidableEq κ]
    (d1 d2 : List (κ × ν)) (k : κ) (h : dictGet d1 k = none) :
    dictGet (d1 ++ d2) k = dictGet d2 k := by
  induction d1 with
  | nil => rfl
  | cons kv rest ih =>
    obtain ⟨k1, v1⟩ := kv
    by_cases hk : k1 = k
    · simp [dictGet, hk] at h
    · simp only [dictGet, if_neg hk] at h
      simp [dictGet, hk, ih h]

theorem mem_keys_dictSet {κ ν : Type} [DecidableEq κ]
    (d : List (κ × ν)) (k k2 : κ) (v : ν)
    (h : k2 ∈ (dictSet d k v).map Prod.fst) : k2 ∈ d.map Prod.fst ∨ k2 = k := by
  induction d with
  | nil =>
    simp only [dictSet, List.map_cons, List.map_nil, List.mem_singleton] at h
    exact Or.inr h
  | cons kv rest ih =>
    obtain ⟨k1, v1⟩ := kv
    by_cases hk : k1 = k
    · subst hk
      rw [show dictSet ((k1, v1) :: rest) k1 v = (k1, v) :: rest from by
        simp [dictSet], List.map_cons] at h
      rcases List.mem_cons.mp h with h2 | h2
      · exact Or.inr h2
      · exact Or.inl (by rw [List.map_cons]; exact List.mem_cons_of_mem _ h2)
    · rw [show dictSet ((k1, v1) :: rest) k v = (k1, v1) :: dictSet rest k v from by
        simp [dictSet, hk], List.map_cons] at h
      rcases List.mem_cons.mp h with h2 | h2
      · exact Or.inl (by rw [List.map_cons]; exact List.mem_cons.mpr (Or.inl h2))
      · rcases ih h2 with h3 | h3
        · exact Or.inl (by rw [List.map_cons]; exact List.mem_cons_of_mem _ h3)
        · exact Or.inr h3

theorem dictNodup_dictSet {κ ν : Type} [DecidableEq κ]
    (d : List (κ × ν)) (k : κ) (v : ν) (h : DictNodup d) :
    DictNodup (dictSet d k v) := by
  induction d with
  | nil => simp [dictSet, DictNodup]
  | cons kv rest ih =>
    obtain ⟨k1, v1⟩ := kv
    simp only [DictNodup, List.map_cons, List.nodup_cons] at h
    by_cases hk : k1 = k
    · subst hk
      rw [show dictSet ((k1, v1) :: rest) k1 v = (k1, v) :: rest from by
        simp [dictSet]]
      simp only [DictNodup, List.map_cons, List.nodup_cons]
      exact h
    · rw [show dictSet ((k1, v1) :: rest) k v = (k1, v1) :: dictSet rest k v from by
        simp [dictSet, hk]]
      simp only [DictNodup, List.map_cons, List.nodup_cons]
      refine ⟨?_, ih h.2⟩
      intro hmem
      rcases mem_keys_dictSet rest k k1 v hmem with h2 | h2
      · exact h.1 h2
      · exact hk h2

theorem dictSet_cons_ne {κ ν : Type} [DecidableEq κ]
    (d : List (κ × ν)) (k k1 : κ) (v v1 : ν) (hne : k ≠ k1) :
    dictSet ((k, v) :: d) k1 v1 = (k, v) :: dictSet d k1 v1 := by
  simp [dictSet, hne]

theorem dictUpdate_cons {κ ν : Type} [DecidableEq κ]
    (d1 : List (κ × ν)) (k : κ) (v : ν) (d2 : List (κ × ν)) :
    dictUpdate d1 ((k, v) :: d2) = dictUpdate (dictSet d1 k v) d2 := rfl

theorem dictUpdate_cons_left {κ ν : Type} [DecidableEq κ]
    (d1 d2 : List (κ × ν)) (k : κ) (v : ν) (h : k ∉ d2.map Prod.fst) :
    dictUpdate ((k, v) :: d1) d2 = (k, v) :: dictUpdate d1 d2 := by
  induction d2 generalizing d1 with
  | nil => rfl
  | cons kv rest ih =>
    obtain ⟨k2, v2⟩ := kv
    simp only [List.map_cons, List.mem_cons, not_or] at h
    rw [dictUpdate_cons, dictUpdate_cons, dictSet_cons_ne d1 k k2 v v2 (fun he => h.1 he)]
    exact ih (dictSet d1 k2 v2) h.2

theorem dictUpdate_nil_left {κ ν : Type} [DecidableEq κ]
    (d : List (κ × ν)) (h : DictNodup d) : dictUpdate [] d = d := by
  induction d with
  | nil => rfl
  | cons kv rest ih =>
    obtain ⟨k, v⟩ := kv
    simp only [DictNodup, List.map_cons, List.nodup_cons] at h
    rw [dictUpdate_cons, show dictSet ([] : List (κ × ν)) k v = [(k, v)] from rfl,
      dictUpdate_cons_left [] rest k v h.1, ih h.2]

theorem dictGet_dictUpdate {κ ν : Type} [DecidableEq κ]
    (d1 d2 : List (κ × ν)) (k : κ) (h : DictNodup d2) :
    dictGet (dictUpdate d1 d2) k
      = match dictGet d2 k with
        | some v => some v
        | none => dictGet d1 k := by
  induction d2 generalizing d1 with
  | nil => rfl
  | cons kv rest ih =>
    obtain ⟨k2, v2⟩ := kv
    simp only [DictNodup, List.map_cons, List.nodup_cons] at h
    rw [dictUpdate_cons, ih (dictSet d1 k2 v2) h.2]
    by_cases hk : k2 = k
    · subst hk
      rw [dictGet_eq_none_of_not_mem rest k2 h.1]
      simp [dictGet, dictGet_dictSet_self]
    · simp only [dictGet, if_neg hk]
      cases dictGet rest k with
      | none => simp [dictGet_dictSet_ne d1 k2 k v2 (Ne.symm hk)]
      | some v => simp

theorem dictGet_mem {κ ν : Type} [DecidableEq κ]
    (d : List (κ × ν)) (k : κ) (v : ν) (h : dictGet d k = some v) : (k, v) ∈ d := by
  induction d with
  | nil => simp [dictGet] at h
  | cons kv rest ih =>
    obtain ⟨k1, v1⟩ := kv
    by_cases hk : k1 = k
    · subst hk
      rw [show dictGet ((k1, v1) :: rest) k1 = some v1 from by simp [dictGet]] at h
      injection h with h2
      subst h2
      exact List.mem_cons_self _ _
    · rw [show dictGet ((k1, v1) :: rest) k = dictGet rest k from by
        simp [dictGet, hk]] at h
      exact List.mem_cons_of_mem _ (ih h)

theorem dict2Get_set_self {κ κ2 ν : Type} [DecidableEq κ] [DecidableEq κ2]
    (d : List (κ × List (κ2 × ν))) (k : κ) (k2 : κ2) (v : ν) :
    dict2Get (dict2Set d k k2 v) k k2 = some v := by
  simp [dict2Get, dict2Set, dictGet_dictSet_self, dictGet_dictSet_self]

theorem dict2Get_set_ne_outer {κ κ2 ν : Type} [DecidableEq κ] [DecidableEq κ2]
    (d : List (κ × List (κ2 × ν))) (k k1 : κ) (k2 k3 : κ2) (v : ν)
    (hne : k1 ≠ k) :
    dict2Get (dict2Set d k k2 v) k1 k3 = dict2Get d k1 k3 := by
  simp [dict2Get, dict2Set, dictGet_dictSet_ne _ _ _ _ hne]

theorem dict2Get_preserved_by_set {κ κ2 ν : Type} [DecidableEq κ] [DecidableEq κ2]
    (d : List (κ × List (κ2 × ν))) (k k1 : κ) (k2 : κ2) (v : ν)
    (h : dict2Get d k1 k2 = some v) :
    dict2Get (dict2Set d k k2 v) k1 k2 = some v := by
  by_cases hk : k1 = k
  · subst hk
    exact dict2Get_set_self d k1 k2 v
  · rw [dict2Get_set_ne_outer d k k1 k2 k2 v hk]
    exact h

theorem foldl_dict2Set_preserve {κ2 ν : Type} [DecidableEq κ2]
    (sym : Str) (field : κ2) (v : ν) (dates : List Str) :
    ∀ (records : List ((Str × Str) × List (κ2 × ν))) (key : Str × Str),
      dict2Get records key field = some v →
      dict2Get (dates.foldl
          (fun recs date => dict2Set recs (sym, date) field v) records)
        key field = some v := by
  induction dates with
  | nil => intro records key h; exact h
  | cons d0 rest ih =>
    intro records key h
    simp only [List.foldl_cons]
    apply ih
    by_cases hk : key = (sym, d0)
    · subst hk
      exact dict2Get_set_self _ _ _ _
    · rw [dict2Get_set_ne_outer _ _ _ _ _ _ hk]
      exact h

theorem foldl_dict2Set_fill {κ2 ν : Type} [DecidableEq κ2]
    (sym : Str) (field : κ2) (v : ν) (dates : List Str) :
    ∀ (records : List ((Str × Str) × List (κ2 × ν))) (d : Str), d ∈ dates →
      dict2Get (dates.foldl
          (fun recs date => dict2Set recs (sym, date) field v) records)
        (sym, d) field = some v := by
  induction dates with
  | nil => intro records d hd; simp at hd
  | cons d0 rest ih =>
    intro records d hd
    simp only [List.foldl_cons]
    rcases List.mem_cons.mp hd with rfl | hd2
    · exact foldl_dict2Set_preserve sym field v rest _ (sym, d)
        (dict2Get_set_self _ _ _ _)
    · exact ih _ d hd2

/-! ## Meta.merge: tags and currencies (C7, C8) -/

/-- C7 (amended): `Meta.merge` concatenates the tag lists: the merged tags are
exactly the elements of both operands (a set union element-wise), but
duplicated tags are kept, not deduplicated. -/
theorem meta_merge_tags_concat (m1 m2 : Meta) :
    (Meta.merge m1 m2).tags = m1.tags ++ m2.tags ∧
    ∀ x, x ∈ (Meta.merge m1 m2).tags ↔ x ∈ m1.tags ∨ x ∈ m2.tags :=
  ⟨rfl, fun _ => List.mem_append⟩

/-- Witness for C7's amended theorem at concrete metas. -/
theorem meta_merge_tags_concat_witness :
    (Meta.merge { tags := ["p".toList] } { tags := ["q".toList] }).tags
      = ["p".toList] ++ ["q".toList] ∧
    ∀ x, x ∈ (Meta.merge { tags := ["p".toList] } { tags := ["q".toList] }).tags
      ↔ x ∈ ({ tags := ["p".toList] } : Meta).tags ∨
        x ∈ ({ tags := ["q".toList] } : Meta).tags :=
  meta_merge_tags_concat { tags := ["p".toList] } { tags := ["q".toList] }

/-- Counterexample to C7 as stated: merging tag collections `["a","b"]` and
`["b","c"]` yields `["a","b","b","c"]`, which duplicates `"b"`, so the result
is not the duplicate-free set `{"a","b","c"}`. -/
theorem meta_merge_tags_counterexample :
    (Meta.merge { tags := ["a".toList, "b".toList] } { tags := ["b".toList, "c".toList] }).tags
      = ["a".toList, "b".toList, "b".toList, "c".toList] ∧
    ¬ (Meta.merge { tags := ["a".toList, "b".toList] }
        { tags := ["b".toList, "c".toList] }).tags.Nodup := by
  exact ⟨rfl, by decide⟩

/-- C8 (amended): `Meta.merge` merges currency maps shallowly, per symbol key:
for a symbol present in `other.currencies` the whole per-symbol field map of
`other` replaces `self`'s (whose per-field entries for that symbol are lost);
symbols absent from `other` keep `self`'s map. -/
theorem meta_merge_currencies_shallow (m1 m2 : Meta)
    (h : DictNodup m2.currencies) (s : Str) :
    (∀ inner, dictGet m2.currencies s = some inner →
      dictGet (Meta.merge m1 m2).currencies s = some inner) ∧
    (dictGet m2.currencies s = none →
      dictGet (Meta.merge m1 m2).currencies s = dictGet m1.currencies s) := by
  have hmc : (Meta.merge m1 m2).currencies
      = dictUpdate m1.currencies m2.currencies := rfl
  have hd := dictGet_dictUpdate m1.currencies m2.currencies s h
  constructor
  · intro inner hi
    rw [hmc, hd, hi]
  · intro hn
    rw [hmc, hd, hn]

/-- Witness for C8's amended theorem at concrete metas. -/
theorem meta_merge_currencies_shallow_witness :
    (∀ inner,
      dictGet ({ currencies := [("S".toList, [("F2".toList, some ("EUR".toList))])] } :
          Meta).currencies ("S".toList) = some inner →
      dictGet (Meta.merge
          { currencies := [("S".toList, [("F1".toList, some ("USD".toList))])] }
          { currencies := [("S".toList, [("F2".toList, some ("EUR".toList))])] }).currencies
        ("S".toList) = some inner) ∧
    (dictGet ({ currencies := [("S".toList, [("F2".toList, some ("EUR".toList))])] } :
        Meta).currencies ("S".toList) = none →
      dictGet (Meta.merge
          { currencies := [("S".toList, [("F1".toList, some ("USD".toList))])] }
          { currencies := [("S".toList, [("F2".toList, some ("EUR".toList))])] }).currencies
        ("S".toList)
      = dictGet ({ currencies := [("S".toList, [("F1".toList, some ("USD".toList))])] } :
          Meta).currencies ("S".toList)) :=
  meta_merge_currencies_shallow
    { currencies := [("S".toList, [("F1".toList, some ("USD".toList))])] }
    { currencies := [("S".toList, [("F2".toList, some ("EUR".toList))])] }
    (by decide) ("S".toList)

/-- Counterexample to C8 as stated: both metas carry currencies for symbol
`"S"` but on different fields; after the merge the first operand's `"F1"`
entry is gone — the second operand's map replaced the first's wholly instead
of being deep-merged. -/
theorem meta_merge_currencies_counterexample :
    dictGet (Meta.merge { currencies := [("S".toList, [("F1".toList, some ("USD".toList))])] }
        { currencies := [("S".toList, [("F2".toList, some ("EUR".toList))])] }).currencies
        ("S".toList) = some [("F2".toList, some ("EUR".toList))] ∧
    dict2Get (Meta.merge { currencies := [("S".toList, [("F1".toList, some ("USD".toList))])] }
        { currencies := [("S".toList, [("F2".toList, some ("EUR".toList))])] }).currencies
        ("S".toList) ("F1".toList) = none :=
  ⟨rfl, rfl⟩

/-! ## Error-variant handling (C6) -/

/-- C6: an `Error`-variant value appends exactly one `Error` record
`(field, symbol, message)`, raises nothing, and fills the record-map entry for
`field` at every date of the axis for that symbol with the absent value
(`None`), both at the `process_symbol_value` level (any field/symbol) and for
a whole-response flatten of an error-only response on field `"F"`, symbol
`"X"`. -/
theorem process_symbol_value_error_variant :
    (∀ (records : RecordDict) (errors : List Error) (field : Str)
        (dates : List Str) (sym : Str) (cur : Option Str) (msg : Str) (ps : Bool),
      ∃ records1,
        process_symbol_value records errors field dates
            ⟨sym, cur, DSValuePayload.error msg⟩ ps
          = Except.ok (records1, errors ++ [⟨field, sym, msg⟩]) ∧
        ∀ d ∈ dates, dict2Get records1 (sym, d) field = some PyObj.none) ∧
    (∀ (dates : List Str) (cur : Option Str) (msg : Str) (ps : Bool),
      ∃ recs meta1,
        parse_response
            ⟨[⟨"F".toList, [⟨"X".toList, cur, DSValuePayload.error msg⟩]⟩],
              some dates, none, none, none, none⟩ ps
          = Except.ok ⟨recs, [⟨"F".toList, "X".toList, msg⟩], meta1⟩ ∧
        ∀ d ∈ dates, ∃ rec ∈ recs,
          dictGet rec ("date".toList) = some (PyObj.str d) ∧
          dictGet rec ("symbol".toList) = some (PyObj.str ("X".toList)) ∧
          dictGet rec ("F".toList) = some PyObj.none) := by
  constructor
  · intro records errors field dates sym cur msg ps
    refine ⟨dates.foldl
      (fun recs date => dict2Set recs (sym, date) field PyObj.none) records, ?_, ?_⟩
    · rfl
    · intro d hd
      exact foldl_dict2Set_fill sym field PyObj.none dates records d hd
  · intro dates cur msg ps
    refine ⟨_, _, rfl, ?_⟩
    intro d hd
    have hfill := foldl_dict2Set_fill ("X".toList) ("F".toList) PyObj.none dates
      ([] : RecordDict) d hd
    simp only [dict2Get, Option.bind_eq_some] at hfill
    obtain ⟨rec, hrec, hfield⟩ := hfill
    refine ⟨dictSet (dictSet rec ("symbol".toList) (PyObj.str ("X".toList)))
      ("date".toList) (PyObj.str d), ?_, ?_, ?_, ?_⟩
    · exact List.mem_map.mpr ⟨(("X".toList, d), rec), dictGet_mem _ _ _ hrec, rfl⟩
    · exact dictGet_dictSet_self _ _ _
    · rw [dictGet_dictSet_ne _ _ _ _ (by decide)]
      exact dictGet_dictSet_self _ _ _
    · rw [dictGet_dictSet_ne _ _ _ _ (by decide),
        dictGet_dictSet_ne _ _ _ _ (by decide)]
      exact hfield

/-! ## Array-value flattening (C4) -/

theorem foldl_dict2Set_fresh {κ2 ν : Type} [DecidableEq κ2] (sym : Str) (field : κ2) :
    ∀ (pairs : List (Str × ν)) (records : List ((Str × Str) × List (κ2 × ν))),
      (∀ p ∈ pairs, dictGet records (sym, p.1) = none) →
      (pairs.map Prod.fst).Nodup →
      pairs.foldl (fun recs dx => dict2Set recs (sym, dx.1) field dx.2) records
        = records ++ pairs.map (fun dx => ((sym, dx.1), [(field, dx.2)])) := by
  intro pairs
  induction pairs with
  | nil => intro records _ _; simp
  | cons p rest ih =>
    intro records hfresh hnd
    obtain ⟨d, v⟩ := p
    simp only [List.map_cons, List.nodup_cons] at hnd
    have hnone : dictGet records (sym, d) = none := hfresh (d, v) (by simp)
    have hset : dict2Set records (sym, d) field v
        = records ++ [((sym, d), [(field, v)])] := by
      rw [dict2Set, hnone]
      exact dictSet_eq_append_of_none _ _ _ hnone
    simp only [List.foldl_cons]
    rw [hset, ih]
    · simp
    · intro p hp
      rw [dictGet_append_left_none _ _ _ (hfresh p (List.mem_cons_of_mem _ hp))]
      have hne : ((sym, d) : Str × Str) ≠ (sym, p.1) := by
        intro he
        injection he with h1 h2
        exact hnd.1 (h2 ▸ List.mem_map_of_mem Prod.fst hp)
      simp [dictGet, hne]
    · exact hnd.2

theorem zip_getElem?_some {α β : Type} (as : List α) (bs : List β) (i : Nat)
    (a : α) (b : β) (ha : as[i]? = some a) (hb : bs[i]? = some b) :
    (as.zip bs)[i]? = some (a, b) :=
  List.getElem?_zip_eq_some.mpr ⟨ha, hb⟩

theorem assemble_record_eq (v : PyObj) (sym d : Str) :
    dictSet (dictSet [("P".toList, v)] ("symbol".toList) (PyObj.str sym))
        ("date".toList) (PyObj.str d)
      = [("P".toList, v), ("symbol".toList, PyObj.str sym), ("date".toList, PyObj.str d)] := rfl

/-- The response of C4: a date axis `ds` and a single Double-array value `vs`
for symbol `"VOD"` on field `"P"` (the shape of the repository's timeseries
fixture). -/
def doubleArrayResponse (ds : List Str) (vs : List Rat) (cur : Option Str) :
    DSDataResponse :=
  ⟨[⟨"P".toList, [⟨"VOD".toList, cur, DSValuePayload.doubleArray vs⟩]⟩],
    some ds, none, none, none, none⟩

/-- C4: flattening a response with 6 distinct dates and a 6-element
Double-array value for symbol `"VOD"` on field `"P"` yields exactly 6 records,
one per date in order, each holding the array element at that date's position
under `"P"`, the symbol under `"symbol"` and the date under `"date"`. -/
theorem parse_response_double_array_records (ds : List Str) (vs : List Rat)
    (cur : Option Str) (ps : Bool) (hnd : ds.Nodup) (hdl : ds.length = 6)
    (hvl : vs.length = 6) :
    ∃ recs meta1,
      parse_response (doubleArrayResponse ds vs cur) ps
        = Except.ok ⟨recs, [], meta1⟩ ∧
      recs = (ds.zip vs).map (fun dx =>
        [("P".toList, PyObj.float dx.2), ("symbol".toList, PyObj.str ("VOD".toList)),
         ("date".toList, PyObj.str dx.1)]) ∧
      recs.length = 6 ∧
      (∀ (i : Nat) (d : Str) (v : Rat), ds[i]? = some d → vs[i]? = some v →
        recs[i]? = some [("P".toList, PyObj.float v),
          ("symbol".toList, PyObj.str ("VOD".toList)), ("date".toList, PyObj.str d)]) := by
  have hfold := foldl_dict2Set_fresh ("VOD".toList) ("P".toList)
    (ds.zip (vs.map PyObj.float)) []
    (fun p _ => rfl)
    (by
      rw [List.map_fst_zip ds (vs.map PyObj.float) (by simp [hdl, hvl])]
      exact hnd)
  have hrecs :
      (ds.zip (vs.map PyObj.float)).map (fun dx =>
        dictSet (dictSet (([("P".toList, dx.2)]) : Record) ("symbol".toList)
          (PyObj.str ("VOD".toList))) ("date".toList) (PyObj.str dx.1))
      = (ds.zip vs).map (fun dx =>
        [("P".toList, PyObj.float dx.2), ("symbol".toList, PyObj.str ("VOD".toList)),
         ("date".toList, PyObj.str dx.1)]) := by
    rw [List.zip_map_right, List.map_map]
    apply List.map_congr_left
    intro dx _
    exact assemble_record_eq (PyObj.float dx.2) ("VOD".toList) dx.1
  have hparse : parse_response (doubleArrayResponse ds vs cur) ps
      = Except.ok ⟨(ds.zip (vs.map PyObj.float)).map (fun dx =>
          dictSet (dictSet (([("P".toList, dx.2)]) : Record) ("symbol".toList)
            (PyObj.str ("VOD".toList))) ("date".toList) (PyObj.str dx.1)), [],
          ⟨[], [], [], [], [("VOD".toList, [("P".toList, cur)])]⟩⟩ := by
    simp only [parse_response, doubleArrayResponse, processDataTypeValues,
      processSymbolValues, process_symbol_value, applyConversion,
      DSValuePayload.isError, DSValuePayload.isString, PyObj.listOf,
      Bool.false_and, if_false, Bool.false_eq_true]
    rw [if_neg (by simp [hdl, hvl])]
    simp only [hfold, List.nil_append]
    rw [List.map_map]
    rfl
  rw [hrecs] at hparse
  refine ⟨_, _, hparse, rfl, ?_, ?_⟩
  · rw [List.length_map, List.length_zip, hdl, hvl]
    exact min_self 6
  · intro i d v hd hv
    rw [List.getElem?_map, zip_getElem?_some ds vs i d v hd hv]
    rfl

/-- Witness for C4 at the repository's timeseries fixture values. -/
theorem parse_response_double_array_records_witness :
    (["/Date(1681689600000+0000)/".toList, "/Date(1681776000000+0000)/".toList,
      "/Date(1681862400000+0000)/".toList, "/Date(1681948800000+0000)/".toList,
      "/Date(1682035200000+0000)/".toList, "/Date(1682294400000+0000)/".toList] :
        List Str).Nodup ∧
    ∃ recs meta1,
      parse_response (doubleArrayResponse
          ["/Date(1681689600000+0000)/".toList, "/Date(1681776000000+0000)/".toList,
           "/Date(1681862400000+0000)/".toList, "/Date(1681948800000+0000)/".toList,
           "/Date(1682035200000+0000)/".toList, "/Date(1682294400000+0000)/".toList]
          [92.71, 92.01, 90.79, 89.81, 90.66, 89.68] (some ("£".toList))) true
        = Except.ok ⟨recs, [], meta1⟩ ∧
      recs = ((["/Date(1681689600000+0000)/".toList, "/Date(1681776000000+0000)/".toList,
           "/Date(1681862400000+0000)/".toList, "/Date(1681948800000+0000)/".toList,
           "/Date(1682035200000+0000)/".toList, "/Date(1682294400000+0000)/".toList] :
            List Str).zip
          ([92.71, 92.01, 90.79, 89.81, 90.66, 89.68] : List Rat)).map (fun dx =>
        [("P".toList, PyObj.float dx.2), ("symbol".toList, PyObj.str ("VOD".toList)),
         ("date".toList, PyObj.str dx.1)]) ∧
      recs.length = 6 ∧
      (∀ (i : Nat) (d : Str) (v : Rat),
        (["/Date(1681689600000+0000)/".toList, "/Date(1681776000000+0000)/".toList,
          "/Date(1681862400000+0000)/".toList, "/Date(1681948800000+0000)/".toList,
          "/Date(1682035200000+0000)/".toList, "/Date(1682294400000+0000)/".toList] :
            List Str)[i]? = some d →
        ([92.71, 92.01, 90.79, 89.81, 90.66, 89.68] : List Rat)[i]? = some v →
        recs[i]? = some [("P".toList, PyObj.float v),
          ("symbol".toList, PyObj.str ("VOD".toList)), ("date".toList, PyObj.str d)]) :=
  ⟨by decide, parse_response_double_array_records _ _ (some ("£".toList)) true
    (by decide) (by decide) (by decide)⟩

/-! ## Invalid-response characterization (C3) -/

theorem listOf_process_string_value (v : PyObj) :
    PyObj.listOf (process_string_value v) = PyObj.listOf v := by
  cases v with
  | str s =>
    simp only [process_string_value]
    by_cases h1 : s = "NA".toList
    · subst h1; rfl
    · rw [if_neg h1]
      by_cases h2 : s = "N".toList
      · subst h2; rfl
      · rw [if_neg h2]
        by_cases h3 : s = "Y".toList
        · subst h3; rfl
        · rw [if_neg h3]
  | none => rfl
  | bool b => rfl
  | int n => rfl
  | float q => rfl
  | datetime d => rfl
  | list l => rfl

/-- Every symbol value of the response decodes without a decode error
(`KeyError`/`ValueError` from `_CONVERSION_MAP`; those escape `parse_response`
as their own exception class, outside the invalid-response taxonomy). -/
abbrev WellDecoded (r : DSDataResponse) : Prop :=
  ∀ dtv ∈ r.data_type_values, ∀ sv ∈ dtv.symbol_values,
    (applyConversion sv.payload).isOk = true

/-- A non-error symbol value that trips one of the two invalid-response
checks of `process_symbol_value` against a date axis of length `n`: an
array-shaped decoded value of the wrong length, or a scalar-shaped decoded
value with a multi-date axis. -/
def isInvalidOffender (n : Nat) (sv : DSSymbolResponseValue) : Bool :=
  !sv.payload.isError &&
    (match applyConversion sv.payload with
     | Except.ok v =>
       match PyObj.listOf v with
       | some xs => xs.length != n
       | none => decide (1 < n)
     | Except.error _ => false)

/-- Some value in the response trips an invalid-response check. -/
abbrev HasInvalidOffender (r : DSDataResponse) (n : Nat) : Prop :=
  ∃ dtv ∈ r.data_type_values, ∃ sv ∈ dtv.symbol_values,
    isInvalidOffender n sv = true

theorem exists_ok_of_isOk {ε α : Type} (e : Except ε α) (h : e.isOk = true) :
    ∃ out, e = Except.ok out := by
  cases e with
  | ok v => exact ⟨v, rfl⟩
  | error e2 => simp [Except.isOk, Except.toBool] at h

theorem process_symbol_value_no_offender (records : RecordDict)
    (errors : List Error) (field : Str) (dates : List Str)
    (sv : DSSymbolResponseValue) (ps : Bool) (hne : dates ≠ [])
    (hdec : (applyConversion sv.payload).isOk = true)
    (hnoff : isInvalidOffender dates.length sv = false) :
    ∃ out, process_symbol_value records errors field dates sv ps
      = Except.ok out := by
  cases happly : applyConversion sv.payload with
  | error e => rw [happly] at hdec; simp [Except.isOk, Except.toBool] at hdec
  | ok v =>
    by_cases hE : sv.payload.isError = true
    · refine exists_ok_of_isOk _ ?_
      simp only [process_symbol_value, happly, hE, if_true]
      rfl
    · rw [Bool.not_eq_true] at hE
      have hshape : PyObj.listOf
          (if (sv.payload.isString && ps) = true then process_string_value v
           else v) = PyObj.listOf v := by
        split
        · exact listOf_process_string_value v
        · rfl
      simp only [isInvalidOffender, happly, hE, Bool.not_false,
        Bool.true_and] at hnoff
      cases hlo : PyObj.listOf v with
      | some xs =>
        simp only [hlo, bne_eq_false_iff_eq] at hnoff
        refine exists_ok_of_isOk _ ?_
        simp only [process_symbol_value, happly, hE, Bool.false_eq_true,
          if_false, hshape.trans hlo]
        rw [if_neg (by omega)]
        rfl
      | none =>
        simp only [hlo, decide_eq_false_iff_not] at hnoff
        cases dates with
        | nil => exact absurd rfl hne
        | cons d rest =>
          refine exists_ok_of_isOk _ ?_
          simp only [process_symbol_value, happly, hE, Bool.false_eq_true,
            if_false, hshape.trans hlo]
          rw [if_neg hnoff]
          rfl

theorem process_symbol_value_offender (records : RecordDict)
    (errors : List Error) (field : Str) (dates : List Str)
    (sv : DSSymbolResponseValue) (ps : Bool)
    (hoff : isInvalidOffender dates.length sv = true) :
    ∃ m, process_symbol_value records errors field dates sv ps
      = Except.error (PyException.invalidResponse m) := by
  rw [isInvalidOffender, Bool.and_eq_true, Bool.not_eq_true'] at hoff
  obtain ⟨hE, hoff2⟩ := hoff
  cases happly : applyConversion sv.payload with
  | error e => simp only [happly] at hoff2; cases hoff2
  | ok v =>
    have hshape : PyObj.listOf
        (if (sv.payload.isString && ps) = true then process_string_value v
         else v) = PyObj.listOf v := by
      split
      · exact listOf_process_string_value v
      · rfl
    simp only [happly] at hoff2
    cases hlo : PyObj.listOf v with
    | some xs =>
      simp only [hlo, bne_iff_ne] at hoff2
      refine ⟨"Number of values does not match number of dates.".toList, ?_⟩
      simp only [process_symbol_value, happly, hE, Bool.false_eq_true,
        if_false, hshape.trans hlo]
      rw [if_pos hoff2]
    | none =>
      simp only [hlo, decide_eq_true_eq] at hoff2
      refine ⟨"More than one date found for single value.".toList, ?_⟩
      simp only [process_symbol_value, happly, hE, Bool.false_eq_true,
        if_false, hshape.trans hlo]
      rw [if_pos hoff2]

theorem processSymbolValues_all_ok (field : Str) (dates : List Str) (ps : Bool)
    (svs : List DSSymbolResponseValue) (hne : dates ≠ [])
    (h : ∀ sv ∈ svs, (applyConversion sv.payload).isOk = true ∧
      isInvalidOffender dates.length sv = false) :
    ∀ acc, ∃ acc1, processSymbolValues field dates ps svs acc
      = Except.ok acc1 := by
  induction svs with
  | nil => intro acc; exact ⟨acc, rfl⟩
  | cons sv rest ih =>
    intro acc
    obtain ⟨records, errors, currencies⟩ := acc
    obtain ⟨hd1, hd2⟩ := h sv (by simp)
    obtain ⟨out, hout⟩ := process_symbol_value_no_offender records errors field
      dates sv ps hne hd1 hd2
    obtain ⟨r1, e1⟩ := out
    simp only [processSymbolValues, hout]
    exact ih (fun x hx => h x (List.mem_cons_of_mem _ hx)) _

theorem processSymbolValues_offender (field : Str) (dates : List Str) (ps : Bool)
    (svs : List DSSymbolResponseValue) (hne : dates ≠ [])
    (hdec : ∀ sv ∈ svs, (applyConversion sv.payload).isOk = true)
    (hoff : ∃ sv ∈ svs, isInvalidOffender dates.length sv = true) :
    ∀ acc, ∃ m, processSymbolValues field dates ps svs acc
      = Except.error (PyException.invalidResponse m) := by
  induction svs with
  | nil => obtain ⟨sv, hsv, _⟩ := hoff; simp at hsv
  | cons sv rest ih =>
    intro acc
    obtain ⟨records, errors, currencies⟩ := acc
    by_cases hsv : isInvalidOffender dates.length sv = true
    · obtain ⟨m, hm⟩ := process_symbol_value_offender records errors field
        dates sv ps hsv
      simp only [processSymbolValues, hm]
      exact ⟨m, rfl⟩
    · rw [Bool.not_eq_true] at hsv
      obtain ⟨out, hout⟩ := process_symbol_value_no_offender records errors field
        dates sv ps hne (hdec sv (by simp)) hsv
      obtain ⟨r1, e1⟩ := out
      simp only [processSymbolValues, hout]
      have hoffrest : ∃ x ∈ rest, isInvalidOffender dates.length x = true := by
        obtain ⟨x, hx, hxoff⟩ := hoff
        rcases List.mem_cons.mp hx with rfl | hx2
        · rw [hsv] at hxoff; cases hxoff
        · exact ⟨x, hx2, hxoff⟩
      exact ih (fun x hx => hdec x (List.mem_cons_of_mem _ hx)) hoffrest _

theorem processDataTypeValues_all_ok (dates : List Str) (ps : Bool)
    (dtvs : List DSDataTypeResponseValue) (hne : dates ≠ [])
    (h : ∀ dtv ∈ dtvs, ∀ sv ∈ dtv.symbol_values,
      (applyConversion sv.payload).isOk = true ∧
      isInvalidOffender dates.length sv = false) :
    ∀ acc, ∃ acc1, processDataTypeValues dates ps dtvs acc = Except.ok acc1 := by
  induction dtvs with
  | nil => intro acc; exact ⟨acc, rfl⟩
  | cons dtv rest ih =>
    intro acc
    obtain ⟨acc1, hacc1⟩ := processSymbolValues_all_ok dtv.data_type dates ps
      dtv.symbol_values hne (h dtv (by simp)) acc
    simp only [processDataTypeValues, hacc1]
    exact ih (fun x hx => h x (List.mem_cons_of_mem _ hx)) acc1

theorem processDataTypeValues_offender (dates : List Str) (ps : Bool)
    (dtvs : List DSDataTypeResponseValue) (hne : dates ≠ [])
    (hdec : ∀ dtv ∈ dtvs, ∀ sv ∈ dtv.symbol_values,
      (applyConversion sv.payload).isOk = true)
    (hoff : ∃ dtv ∈ dtvs, ∃ sv ∈ dtv.symbol_values,
      isInvalidOffender dates.length sv = true) :
    ∀ acc, ∃ m, processDataTypeValues dates ps dtvs acc
      = Except.error (PyException.invalidResponse m) := by
  induction dtvs with
  | nil => obtain ⟨dtv, hdtv, _⟩ := hoff; simp at hdtv
  | cons dtv rest ih =>
    intro acc
    by_cases hfirst : ∃ sv ∈ dtv.symbol_values,
        isInvalidOffender dates.length sv = true
    · obtain ⟨m, hm⟩ := processSymbolValues_offender dtv.data_type dates ps
        dtv.symbol_values hne (hdec dtv (by simp)) hfirst acc
      simp only [processDataTypeValues, hm]
      exact ⟨m, rfl⟩
    · have hall : ∀ sv ∈ dtv.symbol_values,
          (applyConversion sv.payload).isOk = true ∧
          isInvalidOffender dates.length sv = false := by
        intro sv hsv
        refine ⟨hdec dtv (by simp) sv hsv, ?_⟩
        rw [Bool.eq_false_iff]
        intro hcon
        exact hfirst ⟨sv, hsv, hcon⟩
      obtain ⟨acc1, hacc1⟩ := processSymbolValues_all_ok dtv.data_type dates ps
        dtv.symbol_values hne hall acc
      simp only [processDataTypeValues, hacc1]
      have hoffrest : ∃ x ∈ rest, ∃ sv ∈ x.symbol_values,
          isInvalidOffender dates.length sv = true := by
        obtain ⟨x, hx, hxoff⟩ := hoff
        rcases List.mem_cons.mp hx with rfl | hx2
        · exact absurd hxoff hfirst
        · exact ⟨x, hx2, hxoff⟩
      exact ih (fun x hx => hdec x (List.mem_cons_of_mem _ hx)) hoffrest acc1

/-- C3 (amended): `parse_response` raises the typed invalid-response error
when the dates axis is missing (`None`); for a present, nonempty dates axis
whose values all decode, it raises the typed invalid-response error exactly
when some non-error value is array-shaped with a length different from the
date count, or scalar-shaped with a multi-date axis.  (An *empty* dates axis
by itself does not raise the typed error — see the counterexample — it only
raises through the array-length check when a nonzero-length array value is
present, and a scalar value then fails with an untyped `IndexError`.) -/
theorem parse_response_invalid_characterization (r : DSDataResponse) (ps : Bool) :
    (r.dates = none → parse_response r ps
      = Except.error (PyException.invalidResponse
          ("Response does not contain dates. Probably the request was invalid.".toList))) ∧
    (∀ ds, r.dates = some ds → ds ≠ [] → WellDecoded r →
      ((∃ m, parse_response r ps = Except.error (PyException.invalidResponse m))
        ↔ HasInvalidOffender r ds.length)) := by
  constructor
  · intro hd
    simp only [parse_response, hd]
  · intro ds hd hne hwd
    constructor
    · rintro ⟨m, hm⟩
      by_contra hnooff
      have hall : ∀ dtv ∈ r.data_type_values, ∀ sv ∈ dtv.symbol_values,
          (applyConversion sv.payload).isOk = true ∧
          isInvalidOffender ds.length sv = false := by
        intro dtv hdtv sv hsv
        refine ⟨hwd dtv hdtv sv hsv, ?_⟩
        rw [Bool.eq_false_iff]
        intro hcon
        exact hnooff ⟨dtv, hdtv, sv, hsv, hcon⟩
      obtain ⟨acc1, hacc1⟩ := processDataTypeValues_all_ok ds ps
        r.data_type_values hne hall ([], [], [])
      obtain ⟨r1, e1, c1⟩ := acc1
      rw [parse_response, hd] at hm
      simp only [hacc1] at hm
      exact Except.noConfusion hm
    · intro hoffex
      obtain ⟨m, hm⟩ := processDataTypeValues_offender ds ps
        r.data_type_values hne hwd hoffex ([], [], [])
      refine ⟨m, ?_⟩
      rw [parse_response, hd]
      simp only [hm]

/-- Witness for C3's amended theorem: a missing-dates response raises the
typed error, and a response with a 3-element Double array against a 1-date
axis satisfies the characterization. -/
theorem parse_response_invalid_characterization_witness :
    (parse_response ⟨[], none, none, none, none, none⟩ true
      = Except.error (PyException.invalidResponse
          ("Response does not contain dates. Probably the request was invalid.".toList))) ∧
    ((∃ m, parse_response
        ⟨[⟨"P".toList, [⟨"VOD".toList, none, DSValuePayload.doubleArray [1, 2, 3]⟩]⟩],
          some ["d1".toList], none, none, none, none⟩ true
        = Except.error (PyException.invalidResponse m))
      ↔ HasInvalidOffender
          ⟨[⟨"P".toList, [⟨"VOD".toList, none, DSValuePayload.doubleArray [1, 2, 3]⟩]⟩],
            some ["d1".toList], none, none, none, none⟩ 1) :=
  ⟨(parse_response_invalid_characterization
      ⟨[], none, none, none, none, none⟩ true).1 rfl,
    (parse_response_invalid_characterization
      ⟨[⟨"P".toList, [⟨"VOD".toList, none, DSValuePayload.doubleArray [1, 2, 3]⟩]⟩],
        some ["d1".toList], none, none, none, none⟩ true).2 ["d1".toList] rfl
      (by decide) (by decide)⟩

/-- Counterexample to C3 as stated: a response whose dates axis is present
but empty (and with no values at all) completes without raising, although the
claim's "dates axis missing/empty" condition holds, so "raises exactly when
one of the three situations holds" fails. -/
theorem parse_response_empty_dates_counterexample :
    ¬ ((∃ m, parse_response ⟨[], some [], none, none, none, none⟩ true
          = Except.error (PyException.invalidResponse m)) ↔
        ((⟨[], some [], none, none, none, none⟩ : DSDataResponse).dates = none ∨
         (⟨[], some [], none, none, none, none⟩ : DSDataResponse).dates
            = some ([] : List Str) ∨
         HasInvalidOffender (⟨[], some [], none, none, none, none⟩ :
            DSDataResponse) 0)) := by
  intro h
  obtain ⟨m, hm⟩ := h.mpr (Or.inr (Or.inl rfl))
  rw [show parse_response ⟨[], some [], none, none, none, none⟩ true
      = Except.ok ⟨[], [], ⟨[], [], [], [], []⟩⟩ from rfl] at hm
  exact Except.noConfusion hm

/-! ## Aggregation and skipping (C5) -/

theorem dictNodup_dictUpdate {κ ν : Type} [DecidableEq κ]
    (d : List (κ × ν)) (h : DictNodup d) :
    ∀ l, DictNodup (dictUpdate d l) := by
  intro l
  induction l generalizing d with
  | nil => exact h
  | cons kv rest ih => exact ih (dictSet d kv.1 kv.2) (dictNodup_dictSet _ _ _ h)

theorem dictNodup_pairsToDict {κ ν : Type} [DecidableEq κ] (l : List (κ × ν)) :
    DictNodup (pairsToDict l) :=
  dictNodup_dictUpdate [] (by simp [DictNodup]) l

theorem processSymbolValues_currencies_nodup
    (svs : List DSSymbolResponseValue) :
    ∀ (field : Str) (dates : List Str) (ps : Bool)
      (acc out : RecordDict × List Error × CurrencyDict),
      DictNodup acc.2.2 →
      processSymbolValues field dates ps svs acc = Except.ok out →
      DictNodup out.2.2 := by
  induction svs with
  | nil =>
    intro field dates ps acc out h hok
    injection hok with h2
    subst h2
    exact h
  | cons sv rest ih =>
    intro field dates ps acc out h hok
    obtain ⟨records, errors, currencies⟩ := acc
    simp only [processSymbolValues] at hok
    cases hpsv : process_symbol_value records errors field dates sv ps with
    | error e => rw [hpsv] at hok; cases hok
    | ok res =>
      obtain ⟨r1, e1⟩ := res
      rw [hpsv] at hok
      exact ih field dates ps
        (r1, e1, dict2Set currencies sv.symbol field sv.currency) out
        (dictNodup_dictSet _ _ _ h) hok

theorem processDataTypeValues_currencies_nodup
    (dtvs : List DSDataTypeResponseValue) :
    ∀ (dates : List Str) (ps : Bool)
      (acc out : RecordDict × List Error × CurrencyDict),
      DictNodup acc.2.2 →
      processDataTypeValues dates ps dtvs acc = Except.ok out →
      DictNodup out.2.2 := by
  induction dtvs with
  | nil =>
    intro dates ps acc out h hok
    injection hok with h2
    subst h2
    exact h
  | cons dtv rest ih =>
    intro dates ps acc out h hok
    simp only [processDataTypeValues] at hok
    cases hsvs : processSymbolValues dtv.data_type dates ps dtv.symbol_values acc with
    | error e => rw [hsvs] at hok; cases hok
    | ok acc1 =>
      rw [hsvs] at hok
      exact ih dates ps acc1 out
        (processSymbolValues_currencies_nodup dtv.symbol_values dtv.data_type
          dates ps acc acc1 h hsvs) hok

theorem parse_response_ok_meta_nodup (r : DSDataResponse) (ps : Bool)
    (p : ParsedResponse) (h : parse_response r ps = Except.ok p) :
    DictNodup p.meta.data_type_names ∧ DictNodup p.meta.symbol_names ∧
    DictNodup p.meta.additional_responses ∧ DictNodup p.meta.currencies := by
  obtain ⟨dtvs, rdates, rdtn, rsn, rar, rtag⟩ := r
  rw [parse_response] at h
  cases rdates with
  | none => cases h
  | some ds =>
    dsimp only at h
    cases hdtv : processDataTypeValues ds ps dtvs ([], [], []) with
    | error e => rw [hdtv] at h; cases h
    | ok acc =>
      obtain ⟨r1, e1, c1⟩ := acc
      rw [hdtv] at h
      injection h with h2
      subst h2
      have hc1 : DictNodup c1 :=
        processDataTypeValues_currencies_nodup dtvs ds ps ([], [], [])
          (r1, e1, c1) (by simp [DictNodup]) hdtv
      refine ⟨?_, ?_, ?_, hc1⟩
      · cases rdtn with
        | none => exact List.nodup_nil
        | some l =>
          show DictNodup (if l.isEmpty then []
            else pairsToDict (l.map fun kv => (kv.key, kv.value)))
          by_cases hl : l.isEmpty
          · rw [if_pos hl]; exact List.nodup_nil
          · rw [if_neg hl]; exact dictNodup_pairsToDict _
      · cases rsn with
        | none => exact List.nodup_nil
        | some l =>
          show DictNodup (if l.isEmpty then []
            else pairsToDict (l.map fun kv => (kv.key, kv.value)))
          by_cases hl : l.isEmpty
          · rw [if_pos hl]; exact List.nodup_nil
          · rw [if_neg hl]; exact dictNodup_pairsToDict _
      · cases rar with
        | none => exact List.nodup_nil
        | some l =>
          show DictNodup (if l.isEmpty then []
            else pairsToDict (l.map fun kv => (kv.key, kv.value)))
          by_cases hl : l.isEmpty
          · rw [if_pos hl]; exact List.nodup_nil
          · rw [if_neg hl]; exact dictNodup_pairsToDict _

theorem meta_merge_empty_left (m : Meta) (h1 : DictNodup m.data_type_names)
    (h2 : DictNodup m.symbol_names) (h3 : DictNodup m.additional_responses)
    (h4 : DictNodup m.currencies) : Meta.merge {} m = m := by
  obtain ⟨mf1, mf2, mf3, mf4, mf5⟩ := m
  simp only [Meta.merge]
  rw [dictUpdate_nil_left mf1 h1, dictUpdate_nil_left mf2 h2,
    dictUpdate_nil_left mf3 h3, dictUpdate_nil_left mf5 h4, List.nil_append]

/-- The repository's `invalid_response` fixture (`tests/conftest.py`): the
timeseries response with its `Dates` axis replaced by the empty list, keeping
the 6-element Double-array value for `"VOD"` on `"P"`. -/
def invalidDatesResponse : DSDataResponse :=
  ⟨[⟨"P".toList, [⟨"VOD".toList, some ("£".toList), DSValuePayload.doubleArray
      [92.71, 92.01, 90.79, 89.81, 90.66, 89.68]⟩]⟩],
    some [],
    some [⟨some ("P".toList), PyObj.none⟩],
    some [⟨some ("VOD".toList), PyObj.str ("VODAFONE GROUP".toList)⟩],
    some [⟨some ("Frequency".toList), PyObj.str ("D".toList)⟩],
    none⟩

theorem parse_invalidDatesResponse (ps : Bool) :
    parse_response invalidDatesResponse ps
      = Except.error (PyException.invalidResponse
          ("Number of values does not match number of dates.".toList)) := by
  cases ps <;> rfl

/-- C5 (amended): aggregating a valid response together with the repository's
empty-dates fixture (whose 6-element array value trips the array/date-count
check) yields exactly the valid response's records, errors and meta, in
either order; the invalid response is skipped and does not fail the
aggregation. -/
theorem responses_to_records_skips_invalid (v : DSDataResponse)
    (p : ParsedResponse) (ps : Bool) (h : parse_response v ps = Except.ok p) :
    responses_to_records [v, invalidDatesResponse] ps = Except.ok p ∧
    responses_to_records [invalidDatesResponse, v] ps = Except.ok p := by
  obtain ⟨h1, h2, h3, h4⟩ := parse_response_ok_meta_nodup v ps p h
  have hmerge : Meta.merge {} p.meta = p.meta :=
    meta_merge_empty_left p.meta h1 h2 h3 h4
  have hw := parse_invalidDatesResponse ps
  constructor
  · simp only [responses_to_records, responsesToRecordsGo, h, hw]
    rw [List.nil_append, List.nil_append, hmerge]
  · simp only [responses_to_records, responsesToRecordsGo, hw, h]
    rw [List.nil_append, List.nil_append, hmerge]

/-- Witness for C5's amended theorem at a concrete valid response. -/
theorem responses_to_records_skips_invalid_witness :
    responses_to_records [⟨[], some ["x".toList], none, none, none, none⟩,
        invalidDatesResponse] true
      = Except.ok ⟨[], [], ⟨[], [], [], [], []⟩⟩ ∧
    responses_to_records [invalidDatesResponse,
        ⟨[], some ["x".toList], none, none, none, none⟩] true
      = Except.ok ⟨[], [], ⟨[], [], [], [], []⟩⟩ :=
  responses_to_records_skips_invalid ⟨[], some ["x".toList], none, none, none, none⟩
    ⟨[], [], ⟨[], [], [], [], []⟩⟩ true rfl

/-- Counterexample to C5 as stated: an empty-dates response that contains no
values at all parses successfully, so aggregating it with a valid response
contributes its meta (here the tag `"t"`) to the output — the result is not
exactly the valid response's records/errors/meta. -/
theorem responses_to_records_empty_dates_counterexample :
    parse_response ⟨[], some ["x".toList], none, none, none, none⟩ true
      = Except.ok ⟨[], [], ⟨[], [], [], [], []⟩⟩ ∧
    responses_to_records [⟨[], some ["x".toList], none, none, none, none⟩,
        ⟨[], some [], none, none, none, some ("t".toList)⟩] true
      = Except.ok ⟨[], [], ⟨[], [], [], ["t".toList], []⟩⟩ ∧
    (⟨[], [], ⟨[], [], [], ["t".toList], []⟩⟩ : ParsedResponse)
      ≠ (⟨[], [], ⟨[], [], [], [], []⟩⟩ : ParsedResponse) := by
  refine ⟨rfl, rfl, ?_⟩
  intro he
  injection he with hrec herr hmeta
  injection hmeta with hm1 hm2 hm3 hm4 hm5
  exact List.noConfusion hm4

/-- Witness for C6 at a concrete error value and single-date axis. -/
theorem process_symbol_value_error_variant_witness :
    ∃ records1,
      process_symbol_value [] [] ("F".toList) ["d1".toList]
          ⟨"X".toList, none, DSValuePayload.error ("oops".toList)⟩ true
        = Except.ok (records1,
            ([] : List Error) ++ [⟨"F".toList, "X".toList, "oops".toList⟩]) ∧
      ∀ d ∈ ["d1".toList], dict2Get records1 ("X".toList, d) ("F".toList)
        = some PyObj.none :=
  process_symbol_value_error_variant.1 [] [] ("F".toList) ["d1".toList]
    ("X".toList) none ("oops".toList) true

end DswsClient
